import Mathlib

/-!
Verification of the Compiler Interrupt instrumentation pass
(`src/libci/CompilerInterrupt.cpp`) against its natural-language
specification.

The development shallowly embeds the data model and the operations the
claims refer to:

* `ICost` mirrors `struct InstructionCost` (the lazy symbolic cost tree);
* `SCEV` models the host scalar-evolution expression language that the
  pass consumes (the host compiler is an external library per spec §6.1,
  so its constructors are modelled from the spec, with the constant
  folding the proofs depend on);
* `scevToCost` / `costToSCEV` / `simplifyCostM` mirror the conversion
  and simplification bridge (lines 421-872 of the source);
* the cost model `getInstCostForPC` / `getInstCostForIC`, the branch
  container evaluators, the cost-file reader/writer, the probe emitter,
  the loop transformer decision logic, the reducer loop and the fence
  machinery are embedded below, each next to the claims about it.

Machine integers are modelled as `Int` with explicit two's-complement
wrapping where the source works with fixed-width values.
-/

namespace CI

/-! ## Fixed-width integer helpers -/

/-- `2 ^ n` as an integer. -/
def pow2 (n : Nat) : Int := (2 : Int) ^ n

/-- The unsigned value of the low `w` bits of `x` (in `[0, 2^w)`). -/
def uns (w : Nat) (x : Int) : Int := x % pow2 w

/-- Two's-complement wrap of `x` to a signed `w`-bit value. -/
def swrap (w : Nat) (x : Int) : Int :=
  if uns w x < pow2 (w - 1) then uns w x else uns w x - pow2 w

/-- Unsigned 64-bit `>` (LLVM `ICmpUGT` on `i64`). -/
def ugt64 (a b : Int) : Bool := decide (uns 64 a > uns 64 b)

/-- Unsigned 64-bit `>=` (LLVM `ICmpUGE` on `i64`). -/
def uge64 (a b : Int) : Bool := decide (uns 64 a ≥ uns 64 b)

/-- Wrapping 64-bit addition (LLVM `add` on `i64`). -/
def add64 (a b : Int) : Int := swrap 64 (a + b)

/-- Wrapping 64-bit subtraction (LLVM `sub` on `i64`). -/
def sub64 (a b : Int) : Int := swrap 64 (a - b)

/-- C `int` division truncates toward zero. -/
def cdiv (a b : Int) : Int := a.tdiv b

/-! ## The symbolic cost expression (`struct InstructionCost`) -/

/-- Mirror of `struct InstructionCost`: a lazy symbolic tree over
constants, argument indices, n-ary add/mul/min/max, unsigned divide,
casts, call costs and unknown.  The add-recurrence variant is omitted
because `scevToCost` maps add-recurrences to `UNKNOWN` (line 504) and
`costToSCEV` maps them to could-not-compute (line 793), so no reachable
`InstructionCost` value carries that tag.  A cast's `_castExprType` is
modelled by its bit width. -/
inductive ICost where
  | const (v : Int)
  | arg (i : Nat)
  | add (ops : List ICost)
  | mul (ops : List ICost)
  | udiv (a b : ICost)
  | smax (ops : List ICost)
  | smin (ops : List ICost)
  | umax (ops : List ICost)
  | umin (ops : List ICost)
  | zext (w : Nat) (op : ICost)
  | sext (w : Nat) (op : ICost)
  | trunc (w : Nat) (op : ICost)
  | callc (f : String) (argCosts : List ICost)
  | unknown
deriving Repr

/-- `hasConstCost` (line 394): the constant value of a cost, `-1` when the
cost is not a constant (in the source `0` is a valid value). -/
def hasConstCost : ICost → Int
  | .const v => v
  | _ => -1

/-- `getConstCostWithoutAssert` (line 413): identical observable
behaviour to `hasConstCost`. -/
def getConstCostWithoutAssert (c : ICost) : Int := hasConstCost c

/-- `getConstantInstCost` (line 831). -/
def getConstantInstCost (v : Int) : ICost := .const v

/-! ## The host scalar-evolution language (modelled from the spec)

Modelled from the spec: the enclosing compiler framework's
scalar-evolution facility (§6.1) is an external collaborator; only the
behaviour the pass consumes is modelled.  An expression carries the bit
width of its integer type (`getEffectiveSCEVType`); `couldNotCompute` is
`SE->getCouldNotCompute()`. -/
inductive SCEV where
  | constant (w : Nat) (v : Int)
  | argUnknown (w : Nat) (i : Nat)
  | otherUnknown (w : Nat) (id : Nat)
  | addE (ops : List SCEV)
  | mulE (ops : List SCEV)
  | smaxE (ops : List SCEV)
  | sminE (ops : List SCEV)
  | umaxE (ops : List SCEV)
  | uminE (ops : List SCEV)
  | udivE (a b : SCEV)
  | zextE (w : Nat) (op : SCEV)
  | sextE (w : Nat) (op : SCEV)
  | truncE (w : Nat) (op : SCEV)
  | addRecE (start step : SCEV) (loopId : Nat)
  | couldNotCompute
deriving Repr

mutual

/-- Bit width of a scalar-evolution expression's type.  An n-ary node
has the common type of its operands (its first operand's type). -/
def widthOf : SCEV → Nat
  | .constant w _ => w
  | .argUnknown w _ => w
  | .otherUnknown w _ => w
  | .addE ops => headWidth ops
  | .mulE ops => headWidth ops
  | .smaxE ops => headWidth ops
  | .sminE ops => headWidth ops
  | .umaxE ops => headWidth ops
  | .uminE ops => headWidth ops
  | .udivE a _ => widthOf a
  | .zextE w _ => w
  | .sextE w _ => w
  | .truncE w _ => w
  | .addRecE s _ _ => widthOf s
  | .couldNotCompute => 0

/-- Width of the first element of an operand list (64 as a default for
the unreachable empty case). -/
def headWidth : List SCEV → Nat
  | [] => 64
  | o :: _ => widthOf o

end

/-- Is this expression `SE->getCouldNotCompute()`? -/
def isCNC : SCEV → Bool
  | .couldNotCompute => true
  | _ => false

/-- Is this expression an `SCEVConstant`? -/
def isConstE : SCEV → Bool
  | .constant _ _ => true
  | _ => false

/-- Value of an `SCEVConstant` (0 otherwise). -/
def constValOf : SCEV → Int
  | .constant _ v => v
  | _ => 0

/-- Modelled from the spec: `SE->getConstant(Int64Ty, v, true)` builds a
64-bit signed constant. -/
def mkConst64 (v : Int) : SCEV := .constant 64 (swrap 64 v)

/-- Modelled from the spec: `SE->getZeroExtendExpr` folds constants and
otherwise builds a `zext` node. -/
def getZeroExtendExprM (s : SCEV) (w : Nat) : SCEV :=
  match s with
  | .constant w0 v => .constant w (swrap w (uns w0 v))
  | _ => .zextE w s

/-- Modelled from the spec: `SE->getSignExtendExpr` folds constants and
otherwise builds a `sext` node. -/
def getSignExtendExprM (s : SCEV) (w : Nat) : SCEV :=
  match s with
  | .constant _ v => .constant w (swrap w v)
  | _ => .sextE w s

/-- Modelled from the spec: `SE->getTruncateExpr` folds constants and
otherwise builds a `trunc` node. -/
def getTruncateExprM (s : SCEV) (w : Nat) : SCEV :=
  match s with
  | .constant _ v => .constant w (swrap w v)
  | _ => .truncE w s

/-- Modelled from the spec: `SE->getAddExpr` folds the constant
operands at the operands' common width, drops a zero constant, and
collapses a singleton. -/
def getAddExprM (ops : List SCEV) : SCEV :=
  let w := headWidth ops
  let cs := ops.filter isConstE
  let rest := ops.filter (fun o => !(isConstE o))
  let c := swrap w (cs.foldl (fun a o => a + constValOf o) 0)
  if rest.isEmpty then .constant w c
  else if c = 0 then
    match rest with
    | [r] => r
    | _ => .addE rest
  else .addE (.constant w c :: rest)

/-- Modelled from the spec: `SE->getMulExpr` folds the constant
operands, annihilates on zero, drops a unit constant, and collapses a
singleton. -/
def getMulExprM (ops : List SCEV) : SCEV :=
  let w := headWidth ops
  let cs := ops.filter isConstE
  let rest := ops.filter (fun o => !(isConstE o))
  let c := swrap w (cs.foldl (fun a o => a * constValOf o) 1)
  if rest.isEmpty then .constant w c
  else if c = 0 then .constant w 0
  else if c = 1 then
    match rest with
    | [r] => r
    | _ => .mulE rest
  else .mulE (.constant w c :: rest)

/-- Modelled from the spec: `SE->getSMaxExpr` collapses a singleton and
otherwise builds the n-ary node. -/
def getSMaxExprM (ops : List SCEV) : SCEV :=
  match ops with
  | [s] => s
  | _ => .smaxE ops

/-- Modelled from the spec: `SE->getSMinExpr`. -/
def getSMinExprM (ops : List SCEV) : SCEV :=
  match ops with
  | [s] => s
  | _ => .sminE ops

/-- Modelled from the spec: `SE->getUMaxExpr`. -/
def getUMaxExprM (ops : List SCEV) : SCEV :=
  match ops with
  | [s] => s
  | _ => .umaxE ops

/-- Modelled from the spec: `SE->getUMinExpr`. -/
def getUMinExprM (ops : List SCEV) : SCEV :=
  match ops with
  | [s] => s
  | _ => .uminE ops

/-- Modelled from the spec: `SE->getUDivExpr`. -/
def getUDivExprM (a b : SCEV) : SCEV := .udivE a b

/-! ## `scevToCost` (lines 421-545) -/

mutual

/-- `scevToCost` (line 421): translate a scalar-evolution expression to
a cost expression.  Constants of width ≤ 64 map to `const` via
`getSExtValue` — but the value is stored through the C `int intVal`
(line 425), so the sign-extended `w`-bit value is additionally wrapped
to 32 bits on the way into the cost node; `scAddExpr`, `scMulExpr`,
`scSMaxExpr`, `scUMaxExpr` and `scSMinExpr` map to the corresponding
n-ary cost (note the `switch` lists no `scUMinExpr`, which therefore
falls to the default `UNKNOWN` case); an `scUnknown` wrapping an
`Argument` maps to `arg`; casts keep their target type;
add-recurrences, could-not-compute and everything else map to
`unknown`. -/
def scevToCost : SCEV → ICost
  | .constant w v => if w ≤ 64 then .const (swrap 32 (swrap w v)) else .unknown
  | .argUnknown _ i => .arg i
  | .otherUnknown _ _ => .unknown
  | .addE ops => .add (scevToCostList ops)
  | .mulE ops => .mul (scevToCostList ops)
  | .smaxE ops => .smax (scevToCostList ops)
  | .sminE ops => .smin (scevToCostList ops)
  | .umaxE ops => .umax (scevToCostList ops)
  | .uminE _ => .unknown
  | .udivE a b => .udiv (scevToCost a) (scevToCost b)
  | .zextE w op => .zext w (scevToCost op)
  | .sextE w op => .sext w (scevToCost op)
  | .truncE w op => .trunc w (scevToCost op)
  | .addRecE _ _ _ => .unknown
  | .couldNotCompute => .unknown

/-- Operand-list companion of `scevToCost`. -/
def scevToCostList : List SCEV → List ICost
  | [] => []
  | s :: rest => scevToCost s :: scevToCostList rest

end

/-! ## `costToSCEV` (lines 547-829) -/

/-- The global cost tables consulted by `costToSCEV`'s `CALL` case:
`computedFuncInfo` (prefix costs of internal functions) and
`libraryInstructionCosts`. -/
structure GEnv where
  computedFuncCost : String → Option ICost
  libraryCost : String → Option ICost

/-- An operand conversion result that aborts the enclosing conversion:
a null result or a could-not-compute. -/
def optBad : Option SCEV → Bool
  | none => true
  | some s => isCNC s

/-- The `ADD` case of `costToSCEV` after all operands have been
converted (`rs`): return the first null/could-not-compute operand
result if any; otherwise zero-extend the narrower operands to the
widest type and build the n-ary sum (a singleton collapses, an empty
list yields null). -/
def addFromParts (rs : List (Option SCEV)) : Option SCEV :=
  match rs.find? optBad with
  | some bad => bad
  | none =>
    let ss := rs.reduceOption
    let w := ss.foldl (fun acc s => max acc (widthOf s)) 0
    let ws := ss.map (fun s => if widthOf s ≠ w then getZeroExtendExprM s w else s)
    match ws with
    | [] => none
    | [s1] => some s1
    | _ => some (getAddExprM ws)

/-- The `MUL` case of `costToSCEV` after operand conversion; unlike the
`ADD` case it always calls `getMulExpr`. -/
def mulFromParts (rs : List (Option SCEV)) : Option SCEV :=
  match rs.find? optBad with
  | some bad => bad
  | none =>
    let ss := rs.reduceOption
    let w := ss.foldl (fun acc s => max acc (widthOf s)) 0
    let ws := ss.map (fun s => if widthOf s ≠ w then getZeroExtendExprM s w else s)
    some (getMulExprM ws)

/-- Scan of the min/max operand conversion results (`SMAX`/`SMIN`/
`UMAX`/`UMIN` cases of `costToSCEV`): abort on a null operand (the
source asserts) or a could-not-compute, and return could-not-compute as
soon as an operand's type differs from the first operand's type — the
narrower operand is NOT widened.  Returns `some e` when the scan aborts
with overall result `e`, `none` when the scan is clean. -/
def minMaxCheck : List (Option SCEV) → Option Nat → Option (Option SCEV)
  | [], _ => none
  | none :: _, _ => some none
  | some s :: rest, w0 =>
    if isCNC s then some (some .couldNotCompute)
    else
      match w0 with
      | none => minMaxCheck rest (some (widthOf s))
      | some w =>
        if widthOf s ≠ w then some (some .couldNotCompute)
        else minMaxCheck rest (some w)

/-- The min/max cases of `costToSCEV` after operand conversion. -/
def minMaxFromParts (mk : List SCEV → SCEV) (rs : List (Option SCEV)) : Option SCEV :=
  match minMaxCheck rs none with
  | some e => e
  | none => some (mk rs.reduceOption)

mutual

/-- `costToSCEV` (line 547): translate a cost expression back to a
scalar-evolution expression under the caller's argument bindings
`args`.  `none` models both a null return and an assertion failure.
`fuel` bounds the (otherwise unbounded) recursion through the cost
tables in the `CALL` case; it is not consumed anywhere else. -/
def costToSCEV (fuel : Nat) (env : GEnv) (cost : ICost) (args : List SCEV) :
    Option SCEV :=
  match cost with
  | .const v => some (mkConst64 v)
  | .arg i =>
    match args[i]? with
    | some s => some s
    | none => none
  | .unknown => some .couldNotCompute
  | .add ops => addFromParts (costToSCEVList fuel env ops args)
  | .mul ops => mulFromParts (costToSCEVList fuel env ops args)
  | .udiv a b =>
    match costToSCEV fuel env a args, costToSCEV fuel env b args with
    | some l, some r =>
      if isCNC l || isCNC r then some .couldNotCompute
      else
        let lw := widthOf l
        let rw := widthOf r
        let l2 := if lw ≠ rw then getZeroExtendExprM l rw else l
        some (getUDivExprM l2 r)
    | _, _ => none
  | .smax ops => minMaxFromParts .smaxE (costToSCEVList fuel env ops args)
  | .smin ops => minMaxFromParts .sminE (costToSCEVList fuel env ops args)
  | .umax ops => minMaxFromParts .umaxE (costToSCEVList fuel env ops args)
  | .umin ops => minMaxFromParts .uminE (costToSCEVList fuel env ops args)
  | .zext w op =>
    match costToSCEV fuel env op args with
    | none => none
    | some o =>
      if isCNC o then some .couldNotCompute
      else if widthOf o < w then some (getZeroExtendExprM o w)
      else some o
  | .sext w op =>
    match costToSCEV fuel env op args with
    | none => none
    | some o =>
      if isCNC o then some .couldNotCompute
      else some (getSignExtendExprM o w)
  | .trunc w op =>
    match costToSCEV fuel env op args with
    | none => none
    | some o =>
      if isCNC o then some .couldNotCompute
      else some (getTruncateExprM o w)
  | .callc f argCosts =>
    let argSCEVs := (costToSCEVList fuel env argCosts args).map
      (fun r => r.getD .couldNotCompute)
    match
      (match env.computedFuncCost f with
       | some fc => some fc
       | none => env.libraryCost f) with
    | some fc =>
      match fuel with
      | 0 => none
      | fuel' + 1 => costToSCEV fuel' env fc argSCEVs
    | none => some (.constant 64 0)
termination_by (fuel, sizeOf cost)

/-- Operand-list companion of `costToSCEV`. -/
def costToSCEVList (fuel : Nat) (env : GEnv) (cs : List ICost) (args : List SCEV) :
    List (Option SCEV) :=
  match cs with
  | [] => []
  | c :: rest => costToSCEV fuel env c args :: costToSCEVList fuel env rest args
termination_by (fuel, sizeOf cs)

end

/-- `simplifyCost` (line 837): lower a cost expression under the
function's argument bindings; `none` models both the null return and
the fatal `assert` on a could-not-compute result (with `doNotAssert`
the source returns null there). -/
def simplifyCostM (fuel : Nat) (env : GEnv) (fargs : List SCEV) (c : ICost) :
    Option ICost :=
  match costToSCEV fuel env c fargs with
  | none => none
  | some s => if isCNC s then none else some (scevToCost s)

example :
    simplifyCostM 1 ⟨fun _ => none, fun _ => none⟩ []
      (.add [.const 2, .const 3]) = some (.const 5) := by
  simp [simplifyCostM, costToSCEV, costToSCEVList, addFromParts, optBad, isCNC,
    mkConst64, swrap, uns, pow2, widthOf, getAddExprM, headWidth, isConstE,
    constValOf, scevToCost]

/-! ## Instrumentation granularity (enum `instrumentationLevel`, line 106) -/

def OPTIMIZE_HEURISTIC : Nat := 1
def OPTIMIZE_HEURISTIC_WITH_TL : Nat := 2
def NAIVE : Nat := 3
def NAIVE_TL : Nat := 4
def LEGACY_HEURISTIC : Nat := 5
def COREDET_HEURISTIC_TL : Nat := 6
def COREDET_HEURISTIC : Nat := 7
def LEGACY_ACCURATE : Nat := 8
def OPTIMIZE_ACCURATE : Nat := 9
def LEGACY_HEURISTIC_TL : Nat := 10
def NAIVE_ACCURATE : Nat := 11
def OPTIMIZE_INTERMEDIATE : Nat := 12
def NAIVE_INTERMEDIATE : Nat := 13
def OPTIMIZE_HEURISTIC_FIBER : Nat := 14
def OPTIMIZE_HEURISTIC_INTERMEDIATE_FIBER : Nat := 15
def NAIVE_HEURISTIC_FIBER : Nat := 16
def OPTIMIZE_CYCLES : Nat := 17
def NAIVE_CYCLES : Nat := 18

/-- `checkIfInstGranCycleBasedCounter` (line 1123). -/
def checkIfInstGranCycleBasedCounter (g : Nat) : Bool :=
  g == LEGACY_ACCURATE || g == OPTIMIZE_CYCLES || g == NAIVE_CYCLES

/-- `checkIfInstGranIsIntermediate` (line 1136). -/
def checkIfInstGranIsIntermediate (g : Nat) : Bool :=
  g == OPTIMIZE_INTERMEDIATE || g == OPTIMIZE_HEURISTIC_INTERMEDIATE_FIBER ||
    g == NAIVE_INTERMEDIATE

/-- `checkIfInstGranIsDet` (line 1149). -/
def checkIfInstGranIsDet (g : Nat) : Bool :=
  g == NAIVE_TL || g == OPTIMIZE_HEURISTIC_WITH_TL || g == OPTIMIZE_HEURISTIC_FIBER ||
    g == COREDET_HEURISTIC_TL || g == LEGACY_HEURISTIC_TL || g == NAIVE_HEURISTIC_FIBER

/-! ## The per-instruction cost model (claim C2) -/

/-- What the cost model observes about a call instruction: the resolved
callee name (`getCalledFunction`, `none` for calls through function
pointers) and whether the call is a `DbgInfoIntrinsic`. -/
structure CallInfo where
  callee : Option String
  isDbgIntrinsic : Bool
deriving DecidableEq

/-- The IR instruction shapes distinguished by `getInstCostForPC` /
`getInstCostForIC`. -/
inductive Instr where
  | phi
  | load
  | store
  | callI (ci : CallInfo)
  | other

/-- The global state consulted by the cost model: the cost tables, the
option values (`MemOpsCost`, `ExtLibFuncCost`, `InstGranularity`), the
module's function list (`CGOrderedFunc`), the fence and thread-function
name lists, and the SCEVs of the enclosing function's arguments used by
`simplifyCost`. -/
structure CostEnv extends GEnv where
  memOpsCost : Int
  extLibFuncCost : Int
  instGran : Nat
  moduleFuncs : String → Bool
  fenceNames : List String
  threadFuncs : List String
  callerArgs : List SCEV

/-- `isFenceFunc` (line 883): name comparison against `fenceList`. -/
def isFenceFunc (fenceNames : List String) (f : String) : Bool :=
  fenceNames.any (fun fence => f == fence)

/-- `isThreadFunc` (line 874). -/
def isThreadFunc (threadFuncs : List String) (f : String) : Bool :=
  threadFuncs.any (fun tf => f == tf)

/-- `checkIfExternalLibraryCall` (line 970): a resolved, non-debug
callee found neither in `libraryInstructionCosts` nor in the module's
`CGOrderedFunc` list is an external library call. -/
def checkIfExternalLibraryCall (e : CostEnv) (ci : CallInfo) : Bool :=
  match ci.callee with
  | some f =>
    if ci.isDbgIntrinsic then false
    else if (e.libraryCost f).isSome || e.moduleFuncs f then false
    else true
  | none => false

/-- `getLibCallCost` (line 1021). -/
def getLibCallCost (e : CostEnv) : Int :=
  if e.instGran == NAIVE_ACCURATE || e.instGran == OPTIMIZE_ACCURATE then 50
  else e.extLibFuncCost

/-- `getConstCost` (line 403): like `hasConstCost` but asserts a
non-negative constant. -/
def getConstCostE (c : ICost) : Except Unit Int :=
  if hasConstCost c ≥ 0 then .ok (hasConstCost c) else .error ()

/-- Tail of the call case of `getInstCostForPC` (lines 950-958): sum
the collected call costs and simplify.  `simplifyCost` is called with
the default `doNotAssert = false`, so a could-not-compute conversion
result hits the fatal `assert` inside `simplifyCost` (line 866,
`.error`); only a null conversion result reaches the fallback
`getConstantInstCost(1)` at the call site. -/
def pcFinish (fuel : Nat) (e : CostEnv) (callCost : List ICost) : Except Unit ICost :=
  match costToSCEV fuel e.toGEnv (.add callCost) e.callerArgs with
  | none => .ok (getConstantInstCost 1)
  | some s => if isCNC s then .error () else .ok (scevToCost s)

/-- `getInstCostForPC` (line 906).  `.error` models the fatal
`assert(!isFence && ...)` at line 931. -/
def getInstCostForPC (fuel : Nat) (e : CostEnv) (I : Instr) : Except Unit ICost :=
  match I with
  | .phi => .ok (getConstantInstCost 0)
  | .load => .ok (getConstantInstCost e.memOpsCost)
  | .store => .ok (getConstantInstCost e.memOpsCost)
  | .callI ci =>
    match ci.callee with
    | some f =>
      match e.libraryCost f with
      | some fCost => pcFinish fuel e [.const 1, fCost]
      | none =>
        if isFenceFunc e.fenceNames f then .error ()
        else
          let callCost :=
            if !(isThreadFunc e.threadFuncs f) then
              match e.computedFuncCost f with
              | some fCost =>
                if getConstCostWithoutAssert fCost ≠ 0 then [ICost.const 1, fCost]
                else [ICost.const 1]
              | none => [ICost.const 1]
            else [ICost.const 1]
          pcFinish fuel e callCost
    | none => .ok (getConstantInstCost 1)
  | .other => .ok (.const 1)

/-- `getInstCostForIC` (line 1030).  `.error` models the fatal
`assert(!isFence && ...)` at line 1063 and the assert inside
`getConstCost`.  The call cost accumulates in the C `int callCost`
(line 1044): the `long`-valued table cost (`callCost += funcCost`) and
summarized cost (`callCost += numCallCost`) increments convert back to
`int` and wrap at 32 bits.  The external-library increment adds the
`int`-typed option value `getLibCallCost()` in `int` arithmetic, where
overflow is undefined; the model takes that sum exactly.  Note that
for a call through a function pointer (`calledFunction == nullptr`)
the source leaves `newCost` at its initial value `0`. -/
def getInstCostForIC (e : CostEnv) (I : Instr) : Except Unit ICost :=
  match I with
  | .phi => .ok (getConstantInstCost 0)
  | .load => .ok (getConstantInstCost e.memOpsCost)
  | .store => .ok (getConstantInstCost e.memOpsCost)
  | .callI ci =>
    match ci.callee with
    | some f =>
      if checkIfExternalLibraryCall e ci then
        .ok (getConstantInstCost (1 + getLibCallCost e))
      else
        match e.libraryCost f with
        | some fCost =>
          match getConstCostE fCost with
          | .ok funcCost => .ok (getConstantInstCost (swrap 32 (1 + funcCost)))
          | .error u => .error u
        | none =>
          if isFenceFunc e.fenceNames f then .error ()
          else
            let callCost : Int :=
              if !(isThreadFunc e.threadFuncs f) then
                match e.computedFuncCost f with
                | some fCost =>
                  if hasConstCost fCost > 0 then swrap 32 (1 + hasConstCost fCost)
                  else 1
                | none => 1
              else 1
            .ok (getConstantInstCost callCost)
    | none => .ok (getConstantInstCost 0)
  | .other => .ok (getConstantInstCost 1)

/-- A successful simplification determines `pcFinish`. -/
lemma pcFinish_of_simplify (fuel : Nat) (e : CostEnv) (callCost : List ICost)
    (x : ICost)
    (h : simplifyCostM fuel e.toGEnv e.callerArgs (.add callCost) = some x) :
    pcFinish fuel e callCost = .ok x := by
  unfold simplifyCostM at h
  unfold pcFinish
  cases hc : costToSCEV fuel e.toGEnv (.add callCost) e.callerArgs with
  | none => rw [hc] at h; exact absurd h (by simp)
  | some s =>
    rw [hc] at h
    by_cases hcnc : isCNC s
    · simp [hcnc] at h
    · simp [hcnc] at h ⊢
      exact h

/-! ### Helper lemmas on the simplifier -/

/-- A signed value within 63 bits is a fixed point of 64-bit wrapping. -/
lemma swrap64_eq (x : Int) (h1 : -(pow2 63) ≤ x) (h2 : x < pow2 63) :
    swrap 64 x = x := by
  unfold swrap uns pow2 at *
  norm_num at *
  omega

/-- A signed value within 31 bits is a fixed point of 32-bit wrapping. -/
lemma swrap32_eq (x : Int) (h1 : -(pow2 31) ≤ x) (h2 : x < pow2 31) :
    swrap 32 x = x := by
  unfold swrap uns pow2 at *
  norm_num at *
  omega

/-- Simplifying the sum of two constants in the 64-bit range folds them
and then truncates the folded constant to `int` inside `scevToCost`. -/
lemma simplify_add_two_consts (fuel : Nat) (env : GEnv) (fargs : List SCEV)
    (a b : Int) (ha1 : -(pow2 62) ≤ a) (ha2 : a < pow2 62)
    (hb1 : -(pow2 62) ≤ b) (hb2 : b < pow2 62) :
    simplifyCostM fuel env fargs (.add [.const a, .const b]) =
      some (.const (swrap 32 (a + b))) := by
  have hwa := swrap64_eq a (by unfold pow2 at *; omega) (by unfold pow2 at *; omega)
  have hwb := swrap64_eq b (by unfold pow2 at *; omega) (by unfold pow2 at *; omega)
  have hws := swrap64_eq (a + b) (by unfold pow2 at *; omega) (by unfold pow2 at *; omega)
  simp [simplifyCostM, costToSCEV, costToSCEVList, addFromParts, optBad, isCNC,
    mkConst64, hwa, hwb, widthOf, getAddExprM, headWidth, isConstE, constValOf,
    scevToCost, List.filter, List.reduceOption, List.foldl, hws]

/-- Simplifying a singleton sum of a small (int-range) constant yields
the constant unchanged. -/
lemma simplify_add_one_const (fuel : Nat) (env : GEnv) (fargs : List SCEV)
    (a : Int) (ha1 : -(pow2 31) ≤ a) (ha2 : a < pow2 31) :
    simplifyCostM fuel env fargs (.add [.const a]) = some (.const a) := by
  have hwa := swrap64_eq a (by unfold pow2 at *; omega) (by unfold pow2 at *; omega)
  have hwa32 := swrap32_eq a ha1 ha2
  simp [simplifyCostM, costToSCEV, costToSCEVList, addFromParts, optBad, isCNC,
    mkConst64, hwa, hwa32, widthOf, scevToCost, List.reduceOption]

/-- Simplifying `a + arg j` for a small (int-range) constant `a` under
a binding that maps argument `j` to the 64-bit unknown for that
argument keeps the sum symbolic. -/
lemma simplify_add_const_arg (fuel : Nat) (env : GEnv) (fargs : List SCEV)
    (a : Int) (j : Nat) (ha1 : -(pow2 31) ≤ a) (ha2 : a < pow2 31) (ha0 : a ≠ 0)
    (hj : fargs[j]? = some (.argUnknown 64 j)) :
    simplifyCostM fuel env fargs (.add [.const a, .arg j]) =
      some (.add [.const a, .arg j]) := by
  have hwa := swrap64_eq a (by unfold pow2 at *; omega) (by unfold pow2 at *; omega)
  have hwa32 := swrap32_eq a ha1 ha2
  simp [simplifyCostM, costToSCEV, costToSCEVList, addFromParts, optBad, isCNC,
    mkConst64, hwa, hwa32, hj, widthOf, getAddExprM, headWidth, isConstE, constValOf,
    scevToCost, scevToCostList, List.filter, List.reduceOption, List.foldl, ha0]

/-- C2 (amended).  For every IR instruction the base cost is:
`MemOpsCost` for a load or store; 0 for a phi; `1 + tableCost` for a
call to a function in the library cost table; in instantaneous mode
`1 + getLibCallCost` for an external call with a resolved non-debug
callee; `1 + summarizedCost(callee)` for a call to a non-thread internal
function whose summarized cost is recorded (kept symbolic in predictive
mode; in instantaneous mode credited only when it is a positive
constant); 1 for a call to a thread function or to a callee with no
cost record (including debug intrinsics, which are costed as ordinary
resolved calls, not 0); 1 for a call through a function pointer in
predictive mode but 0 in instantaneous mode; and 1 for every other
instruction.  The `1 + cost` sums are computed through C `int`
(`int callCost`, line 1044, and `scevToCost`'s `int intVal`, line 425)
and wrap at 32 bits: they equal the exact sum only below `INT_MAX`, and
at a table cost of `INT_MAX` (reachable through `atoi` in `readCost`)
the instantaneous cost wraps to `INT_MIN`. -/
theorem claim_C2 (fuel : Nat) (e : CostEnv) (d : Bool) :
    (getInstCostForPC fuel e .phi = .ok (.const 0) ∧
     getInstCostForIC e .phi = .ok (.const 0)) ∧
    (getInstCostForPC fuel e .load = .ok (.const e.memOpsCost) ∧
     getInstCostForPC fuel e .store = .ok (.const e.memOpsCost) ∧
     getInstCostForIC e .load = .ok (.const e.memOpsCost) ∧
     getInstCostForIC e .store = .ok (.const e.memOpsCost)) ∧
    (getInstCostForPC fuel e .other = .ok (.const 1) ∧
     getInstCostForIC e .other = .ok (.const 1)) ∧
    (getInstCostForPC fuel e (.callI ⟨none, d⟩) = .ok (.const 1) ∧
     getInstCostForIC e (.callI ⟨none, d⟩) = .ok (.const 0)) ∧
    (∀ f c, e.libraryCost f = some (.const c) → 0 ≤ c →
      getInstCostForIC e (.callI ⟨some f, d⟩) = .ok (.const (swrap 32 (1 + c))) ∧
      (c < pow2 62 →
        getInstCostForPC fuel e (.callI ⟨some f, d⟩) =
          .ok (.const (swrap 32 (1 + c)))) ∧
      (c < pow2 31 - 1 →
        getInstCostForPC fuel e (.callI ⟨some f, d⟩) = .ok (.const (1 + c)) ∧
        getInstCostForIC e (.callI ⟨some f, d⟩) = .ok (.const (1 + c)))) ∧
    (∀ f, e.libraryCost f = some (.const (pow2 31 - 1)) →
      getInstCostForIC e (.callI ⟨some f, d⟩) = .ok (.const (-(pow2 31)))) ∧
    (∀ f, e.libraryCost f = none → e.moduleFuncs f = false →
      getInstCostForIC e (.callI ⟨some f, false⟩) =
        .ok (.const (1 + getLibCallCost e))) ∧
    (∀ f c, e.libraryCost f = none → e.moduleFuncs f = true →
      isFenceFunc e.fenceNames f = false → isThreadFunc e.threadFuncs f = false →
      e.computedFuncCost f = some (.const c) → 0 < c →
      getInstCostForIC e (.callI ⟨some f, d⟩) = .ok (.const (swrap 32 (1 + c))) ∧
      (c < pow2 62 →
        getInstCostForPC fuel e (.callI ⟨some f, d⟩) =
          .ok (.const (swrap 32 (1 + c)))) ∧
      (c < pow2 31 - 1 →
        getInstCostForPC fuel e (.callI ⟨some f, d⟩) = .ok (.const (1 + c)) ∧
        getInstCostForIC e (.callI ⟨some f, d⟩) = .ok (.const (1 + c)))) ∧
    (∀ f j, e.libraryCost f = none →
      isFenceFunc e.fenceNames f = false → isThreadFunc e.threadFuncs f = false →
      e.computedFuncCost f = some (.arg j) →
      e.callerArgs[j]? = some (.argUnknown 64 j) →
      getInstCostForPC fuel e (.callI ⟨some f, d⟩) = .ok (.add [.const 1, .arg j]) ∧
      (e.moduleFuncs f = true →
        getInstCostForIC e (.callI ⟨some f, d⟩) = .ok (.const 1))) ∧
    (∀ f, e.libraryCost f = none → e.moduleFuncs f = true →
      isFenceFunc e.fenceNames f = false → isThreadFunc e.threadFuncs f = true →
      getInstCostForPC fuel e (.callI ⟨some f, d⟩) = .ok (.const 1) ∧
      getInstCostForIC e (.callI ⟨some f, d⟩) = .ok (.const 1)) ∧
    (∀ f, e.libraryCost f = none → e.moduleFuncs f = false →
      isFenceFunc e.fenceNames f = false → isThreadFunc e.threadFuncs f = false →
      e.computedFuncCost f = none →
      getInstCostForPC fuel e (.callI ⟨some f, true⟩) = .ok (.const 1) ∧
      getInstCostForIC e (.callI ⟨some f, true⟩) = .ok (.const 1)) := by
  have h1 : -(pow2 31) ≤ (1 : Int) := by unfold pow2; norm_num
  have h2 : (1 : Int) < pow2 31 := by unfold pow2; norm_num
  refine ⟨⟨rfl, rfl⟩, ⟨rfl, rfl, rfl, rfl⟩, ⟨rfl, rfl⟩, ⟨rfl, rfl⟩,
    ?_, ?_, ?_, ?_, ?_, ?_, ?_⟩
  · intro f c hf hc1
    refine ⟨?_, ?_, ?_⟩
    · simp [getInstCostForIC, getConstantInstCost, checkIfExternalLibraryCall, hf,
        getConstCostE, hasConstCost, hc1]
    · intro hc2
      have hs := simplify_add_two_consts fuel e.toGEnv e.callerArgs 1 c
        (by unfold pow2; norm_num) (by unfold pow2; norm_num)
        (by unfold pow2 at *; omega) hc2
      simp [getInstCostForPC, getConstantInstCost, hf,
        pcFinish_of_simplify fuel e [.const 1, .const c] _ hs]
    · intro hc3
      have hc2 : c < pow2 62 := by unfold pow2 at *; omega
      have h31 : swrap 32 (1 + c) = 1 + c :=
        swrap32_eq (1 + c) (by unfold pow2 at *; omega) (by unfold pow2 at *; omega)
      have hs := simplify_add_two_consts fuel e.toGEnv e.callerArgs 1 c
        (by unfold pow2; norm_num) (by unfold pow2; norm_num)
        (by unfold pow2 at *; omega) hc2
      constructor
      · simp [getInstCostForPC, getConstantInstCost, hf,
          pcFinish_of_simplify fuel e [.const 1, .const c] _ hs, h31]
      · simp [getInstCostForIC, getConstantInstCost, checkIfExternalLibraryCall, hf,
          getConstCostE, hasConstCost, hc1, h31]
  · intro f hf
    have hge : (0 : Int) ≤ pow2 31 - 1 := by unfold pow2; norm_num
    have hw : swrap 32 (pow2 31) = -(pow2 31) := by decide
    simp [getInstCostForIC, getConstantInstCost, checkIfExternalLibraryCall, hf,
      getConstCostE, hasConstCost, hge, hw]
  · intro f hf hm
    simp [getInstCostForIC, getConstantInstCost, checkIfExternalLibraryCall, hf, hm]
  · intro f c hf hm hfence hthread hcomp hc1
    refine ⟨?_, ?_, ?_⟩
    · simp [getInstCostForIC, getConstantInstCost, checkIfExternalLibraryCall, hf, hm,
        hfence, hthread, hcomp, hasConstCost, hc1]
    · intro hc2
      have hs := simplify_add_two_consts fuel e.toGEnv e.callerArgs 1 c
        (by unfold pow2; norm_num) (by unfold pow2; norm_num)
        (by unfold pow2 at *; omega) hc2
      simp [getInstCostForPC, getConstantInstCost, hf, hfence, hthread, hcomp,
        getConstCostWithoutAssert, hasConstCost, hc1.ne',
        pcFinish_of_simplify fuel e [.const 1, .const c] _ hs]
    · intro hc3
      have hc2 : c < pow2 62 := by unfold pow2 at *; omega
      have h31 : swrap 32 (1 + c) = 1 + c :=
        swrap32_eq (1 + c) (by unfold pow2 at *; omega) (by unfold pow2 at *; omega)
      have hs := simplify_add_two_consts fuel e.toGEnv e.callerArgs 1 c
        (by unfold pow2; norm_num) (by unfold pow2; norm_num)
        (by unfold pow2 at *; omega) hc2
      constructor
      · simp [getInstCostForPC, getConstantInstCost, hf, hfence, hthread, hcomp,
          getConstCostWithoutAssert, hasConstCost, hc1.ne',
          pcFinish_of_simplify fuel e [.const 1, .const c] _ hs, h31]
      · simp [getInstCostForIC, getConstantInstCost, checkIfExternalLibraryCall, hf, hm,
          hfence, hthread, hcomp, hasConstCost, hc1, h31]
  · intro f j hf hfence hthread hcomp hj
    constructor
    · simp [getInstCostForPC, getConstantInstCost, hf, hfence, hthread, hcomp,
        getConstCostWithoutAssert, hasConstCost,
        pcFinish_of_simplify fuel e [.const 1, .arg j] _
          (simplify_add_const_arg fuel e.toGEnv e.callerArgs 1 j h1 h2 one_ne_zero hj)]
    · intro hm
      simp [getInstCostForIC, getConstantInstCost, checkIfExternalLibraryCall, hf, hm,
        hfence, hthread, hcomp, hasConstCost]
  · intro f hf hm hfence hthread
    constructor
    · simp [getInstCostForPC, getConstantInstCost, hf, hfence, hthread,
        pcFinish_of_simplify fuel e [.const 1] _
          (simplify_add_one_const fuel e.toGEnv e.callerArgs 1 h1 h2)]
    · simp [getInstCostForIC, getConstantInstCost, checkIfExternalLibraryCall, hf, hm,
        hfence, hthread]
  · intro f hf hm hfence hthread hcomp
    constructor
    · simp [getInstCostForPC, getConstantInstCost, hf, hfence, hthread, hcomp,
        pcFinish_of_simplify fuel e [.const 1] _
          (simplify_add_one_const fuel e.toGEnv e.callerArgs 1 h1 h2)]
    · simp [getInstCostForIC, getConstantInstCost, checkIfExternalLibraryCall, hf, hm,
        hfence, hthread, hcomp]

/-- A concrete cost-model state: empty cost tables, empty fence and
thread lists, `MemOpsCost = 1`, `ExtLibFuncCost = 10`, default
optimized granularity. -/
def c2Env : CostEnv where
  computedFuncCost := fun _ => none
  libraryCost := fun _ => none
  memOpsCost := 1
  extLibFuncCost := 10
  instGran := OPTIMIZE_HEURISTIC_WITH_TL
  moduleFuncs := fun _ => false
  fenceNames := []
  threadFuncs := []
  callerArgs := []

/-- C2, counterexample to the claim as stated: a debug intrinsic (a
`CallInst` on `llvm.dbg.value`, which is a declaration with no recorded
cost) is costed 1 by both `getInstCostForPC` and `getInstCostForIC`,
not 0 as the claim asserts. -/
theorem claim_C2_counterexample :
    getInstCostForPC 1 c2Env (.callI ⟨some "llvm.dbg.value", true⟩) =
      .ok (.const 1) ∧
    getInstCostForIC c2Env (.callI ⟨some "llvm.dbg.value", true⟩) =
      .ok (.const 1) ∧
    ICost.const (1 : Int) ≠ ICost.const (0 : Int) := by
  refine ⟨?_, ?_, by simp⟩
  · have hlib : c2Env.libraryCost "llvm.dbg.value" = none := rfl
    have hcf : c2Env.computedFuncCost "llvm.dbg.value" = none := rfl
    have hfe : isFenceFunc c2Env.fenceNames "llvm.dbg.value" = false := rfl
    have hth : isThreadFunc c2Env.threadFuncs "llvm.dbg.value" = false := rfl
    have hp := pcFinish_of_simplify 1 c2Env [.const 1] (.const 1)
      (simplify_add_one_const 1 c2Env.toGEnv c2Env.callerArgs 1
        (by unfold pow2; norm_num) (by unfold pow2; norm_num))
    simp [getInstCostForPC, getConstantInstCost, hlib, hcf, hfe, hth, hp]
  · simp [getInstCostForIC, getConstantInstCost, c2Env, checkIfExternalLibraryCall, isFenceFunc,
      isThreadFunc]

/-- C2, witness: the amended theorem applied at a concrete external
call under `c2Env`. -/
theorem claim_C2_witness :
    getInstCostForIC c2Env (.callI ⟨some "strcmp", false⟩) =
      .ok (.const (1 + getLibCallCost c2Env)) :=
  (claim_C2 1 c2Env false).2.2.2.2.2.2.1 "strcmp" rfl rfl

/-! ## The library-cost file (claim C3) -/

/-- Decimal digit characters of `n`, most significant first (the
rendering of a non-negative integer by `raw_fd_ostream`). -/
def decDigits (n : Nat) : List Char :=
  if _h : n < 10 then [Nat.digitChar n]
  else decDigits (n / 10) ++ [Nat.digitChar (n % 10)]
decreasing_by exact Nat.div_lt_self (by omega) (by omega)

/-- Decimal rendering of an integer. -/
def intDec (v : Int) : String :=
  if v < 0 then ⟨'-' :: decDigits (-v).toNat⟩ else ⟨decDigits v.toNat⟩

mutual

/-- `operator<<` for `InstructionCost` (line 301): constants print bare,
arguments as `(ARG: i)`, n-ary nodes prefix their operator and print
each operand followed by a space, with parentheses exactly when there
is more than one operand; casts and calls have their own forms. -/
def printCost : ICost → String
  | .const v => intDec v
  | .arg i => "(ARG: " ++ intDec i ++ ")"
  | .add ops => printNary "+ " ops
  | .mul ops => printNary "* " ops
  | .udiv a b => "(/ " ++ printCost a ++ " " ++ printCost b ++ " )"
  | .smax ops => printNary "smax " ops
  | .smin ops => printNary "smin " ops
  | .umax ops => printNary "umax " ops
  | .umin ops => printNary "umin " ops
  | .zext w op => "(zext " ++ printCost op ++ " i" ++ intDec w ++ ")"
  | .sext w op => "(sext " ++ printCost op ++ " i" ++ intDec w ++ ")"
  | .trunc w op => "(trunc " ++ printCost op ++ " i" ++ intDec w ++ ")"
  | .callc f ops => "call_cost(" ++ f ++ "(" ++ printArgList ops ++ ")) "
  | .unknown => "(unknown)"

/-- The n-ary branch of `operator<<`. -/
def printNary (opName : String) (ops : List ICost) : String :=
  (if ops.length > 1 then "(" else "") ++ opName ++ printOps ops ++
    (if ops.length > 1 then ")" else "")

/-- Operands, each followed by a space. -/
def printOps : List ICost → String
  | [] => ""
  | o :: rest => printCost o ++ " " ++ printOps rest

/-- Call arguments, each followed by a comma and space. -/
def printArgList : List ICost → String
  | [] => ""
  | o :: rest => printCost o ++ ", " ++ printArgList rest

end

/-- C `isdigit`. -/
def isDigitCh (c : Char) : Bool := 48 ≤ c.toNat && c.toNat ≤ 57

/-- C `isspace` (the characters `atoi` skips). -/
def isSpaceCh (c : Char) : Bool :=
  c.toNat == 32 || (9 ≤ c.toNat && c.toNat ≤ 13)

/-- Value of a digit string (most significant first). -/
def digitsVal (cs : List Char) : Int :=
  cs.foldl (fun acc c => acc * 10 + ((c.toNat : Int) - 48)) 0

/-- C `atoi` on a character list: skip whitespace, optional sign, then
the longest digit prefix (no digits yields 0). -/
def atoiChars (cs : List Char) : Int :=
  match cs.dropWhile isSpaceCh with
  | [] => 0
  | c :: rest =>
    if c == '-' then -(digitsVal (rest.takeWhile isDigitCh))
    else if c == '+' then digitsVal (rest.takeWhile isDigitCh)
    else digitsVal ((c :: rest).takeWhile isDigitCh)

/-- One line of `readCost`'s loop (lines 10923-10933): lines without a
colon are skipped; otherwise `strtok(buf, ":")` yields the name (after
skipping leading colons; a line of only colons is skipped) and the text
up to the next colon is fed to `atoi`.  (When nothing follows the first
colon the source passes a null token to `atoi`; no entry results.) -/
def parseCostLine (line : String) : Option (String × Int) :=
  let cs := line.data
  if cs.all (fun c => c != ':') then none
  else
    let cs1 := cs.dropWhile (fun c => c == ':')
    let tok1 := cs1.takeWhile (fun c => c != ':')
    let rest := ((cs1.dropWhile (fun c => c != ':')).dropWhile (fun c => c == ':'))
    let tok2 := rest.takeWhile (fun c => c != ':')
    if tok1.isEmpty then none
    else if tok2.isEmpty then none
    else some (⟨tok1⟩, atoiChars tok2)

/-- The entry lines of `readCost`, in file order. -/
def readCostLines : List String → List (String × Int)
  | [] => []
  | l :: rest =>
    match parseCostLine l with
    | some entry => entry :: readCostLines rest
    | none => readCostLines rest

/-- `readCost` (line 10895).  An unset `InCostFilePath` is accepted with
no entries; a missing file fails; otherwise the first line must be the
literal `Cost File` and every later line holding a colon contributes a
`name ↦ CONST atoi(text)` entry to `libraryInstructionCosts`. -/
def readCost (pathGiven : Bool) (file : Option (List String)) :
    Option (List (String × Int)) :=
  if !pathGiven then some []
  else
    match file with
    | none => none
    | some [] => some []
    | some (l0 :: rest) =>
      if l0 = "Cost File" then some (readCostLines rest) else none

/-- A module function as `writeCost` sees it: the name, the
`computedFuncInfo` record (if any) and the function's own argument
SCEVs used by `simplifyCost`. -/
structure WFunc where
  name : String
  cost : Option ICost
  argSCEVs : List SCEV

/-- The entry lines of `writeCost` (lines 10875-10891): for every
function with a cost record whose simplification is a constant whose
`int` truncation is positive, emit `name:<printed UNSIMPLIFIED cost>`.
The fatal `assert` inside `simplifyCost` on a could-not-compute result
is `.error`. -/
def writeCostEntries (fuel : Nat) (env : GEnv) : List WFunc → Except Unit (List String)
  | [] => .ok []
  | F :: rest =>
    match F.cost with
    | none => writeCostEntries fuel env rest
    | some funcCost =>
      match costToSCEV fuel env funcCost F.argSCEVs with
      | none => writeCostEntries fuel env rest
      | some s =>
        if isCNC s then .error ()
        else
          match writeCostEntries fuel env rest with
          | .error u => .error u
          | .ok ls =>
            if swrap 32 (getConstCostWithoutAssert (scevToCost s)) > 0 then
              .ok ((F.name ++ ":" ++ printCost funcCost) :: ls)
            else .ok ls

/-- `writeCost` (line 10864): the literal first line `Cost File`
followed by the entry lines. -/
def writeCost (fuel : Nat) (env : GEnv) (fs : List WFunc) : Except Unit (List String) :=
  (writeCostEntries fuel env fs).map (fun ls => "Cost File" :: ls)

/-! ### Digit and parsing lemmas -/

lemma digitChar_toNat (d : Nat) (h : d < 10) : (Nat.digitChar d).toNat = 48 + d := by
  interval_cases d <;> rfl

lemma digitChar_isDigit (d : Nat) (h : d < 10) : isDigitCh (Nat.digitChar d) = true := by
  interval_cases d <;> rfl

lemma decDigits_ne_nil (n : Nat) : decDigits n ≠ [] := by
  unfold decDigits
  split <;> simp

lemma decDigits_all_digit (n : Nat) : ∀ c ∈ decDigits n, isDigitCh c = true := by
  induction n using Nat.strong_induction_on with
  | _ n ih =>
    unfold decDigits
    split
    · next h =>
      intro c hc
      simp only [List.mem_singleton] at hc
      subst hc
      exact digitChar_isDigit n h
    · next h =>
      intro c hc
      rcases List.mem_append.mp hc with h1 | h1
      · exact ih (n / 10) (Nat.div_lt_self (by omega) (by omega)) c h1
      · simp only [List.mem_singleton] at h1
        subst h1
        exact digitChar_isDigit (n % 10) (Nat.mod_lt _ (by omega))

lemma digitsVal_append_one (cs : List Char) (c : Char) :
    digitsVal (cs ++ [c]) = digitsVal cs * 10 + ((c.toNat : Int) - 48) := by
  simp [digitsVal, List.foldl_append]

lemma digitsVal_decDigits (n : Nat) : digitsVal (decDigits n) = (n : Int) := by
  induction n using Nat.strong_induction_on with
  | _ n ih =>
    unfold decDigits
    split
    · next h =>
      simp [digitsVal, digitChar_toNat n h]
    · next h =>
      rw [digitsVal_append_one, ih (n / 10) (Nat.div_lt_self (by omega) (by omega)),
        digitChar_toNat (n % 10) (Nat.mod_lt _ (by omega))]
      have h10 := Nat.div_add_mod n 10
      push_cast
      omega

lemma isDigit_bounds (c : Char) (h : isDigitCh c = true) :
    48 ≤ c.toNat ∧ c.toNat ≤ 57 := by
  simp [isDigitCh] at h
  exact h

lemma isDigit_ne_colon (c : Char) (h : isDigitCh c = true) : (c != ':') = true := by
  rcases isDigit_bounds c h with ⟨h1, h2⟩
  simp only [bne_iff_ne, ne_eq]
  intro hc
  subst hc
  simp at h2

lemma isDigit_not_space (c : Char) (h : isDigitCh c = true) : isSpaceCh c = false := by
  rcases isDigit_bounds c h with ⟨h1, h2⟩
  simp [isSpaceCh]
  omega

lemma isDigit_ne_minus (c : Char) (h : isDigitCh c = true) : (c == '-') = false := by
  rcases isDigit_bounds c h with ⟨h1, h2⟩
  simp only [beq_eq_false_iff_ne, ne_eq]
  intro hc
  subst hc
  simp at h1

lemma isDigit_ne_plus (c : Char) (h : isDigitCh c = true) : (c == '+') = false := by
  rcases isDigit_bounds c h with ⟨h1, h2⟩
  simp only [beq_eq_false_iff_ne, ne_eq]
  intro hc
  subst hc
  simp at h1

lemma takeWhile_all_of (p : Char → Bool) (cs : List Char)
    (h : ∀ c ∈ cs, p c = true) : cs.takeWhile p = cs := by
  induction cs with
  | nil => rfl
  | cons c rest ih =>
    rw [List.takeWhile_cons, h c (by simp)]
    simp [ih (fun x hx => h x (by simp [hx]))]

lemma takeWhile_append_stop (p : Char → Bool) (xs ys : List Char) (y : Char)
    (hxs : ∀ c ∈ xs, p c = true) (hy : p y = false) :
    (xs ++ y :: ys).takeWhile p = xs := by
  induction xs with
  | nil => simp [List.takeWhile_cons, hy]
  | cons x rest ih =>
    rw [List.cons_append, List.takeWhile_cons, hxs x (by simp)]
    simp [ih (fun c hc => hxs c (by simp [hc]))]

lemma dropWhile_append_stop (p : Char → Bool) (xs ys : List Char) (y : Char)
    (hxs : ∀ c ∈ xs, p c = true) (hy : p y = false) :
    (xs ++ y :: ys).dropWhile p = y :: ys := by
  induction xs with
  | nil => simp [List.dropWhile_cons, hy]
  | cons x rest ih =>
    rw [List.cons_append, List.dropWhile_cons, hxs x (by simp)]
    simpa using ih (fun c hc => hxs c (by simp [hc]))

lemma dropWhile_id_of_head (p : Char → Bool) (c : Char) (cs : List Char)
    (h : p c = false) : (c :: cs).dropWhile p = c :: cs := by
  simp [List.dropWhile_cons, h]

/-- `atoi` recovers a positive constant from its decimal rendering. -/
lemma atoiChars_decDigits (n : Nat) : atoiChars (decDigits n) = (n : Int) := by
  obtain ⟨c, rest, hcs⟩ := List.exists_cons_of_ne_nil (decDigits_ne_nil n)
  have hall := decDigits_all_digit n
  rw [hcs] at hall ⊢
  have hc : isDigitCh c = true := hall c (by simp)
  unfold atoiChars
  rw [dropWhile_id_of_head _ _ _ (isDigit_not_space c hc)]
  simp only [isDigit_ne_minus c hc, isDigit_ne_plus c hc, Bool.false_eq_true, if_false]
  rw [takeWhile_all_of _ _ hall, ← hcs, digitsVal_decDigits]

/-- `parseCostLine` recovers a written `name:value` line. -/
lemma parseCostLine_generated (name : String) (c : Int) (h0 : 0 < c)
    (hne : name.data ≠ []) (hcol : ∀ ch ∈ name.data, (ch != ':') = true) :
    parseCostLine (name ++ ":" ++ intDec c) = some (name, c) := by
  have hdata : (name ++ ":" ++ intDec c).data = name.data ++ ':' :: (intDec c).data := by
    simp [String.data_append]
  have hdec : (intDec c).data = decDigits c.toNat := by
    unfold intDec
    rw [if_neg (by omega)]
  have halldig : ∀ ch ∈ (intDec c).data, isDigitCh ch = true := by
    rw [hdec]; exact decDigits_all_digit c.toNat
  have hallne : ∀ ch ∈ (intDec c).data, (ch != ':') = true :=
    fun ch hch => isDigit_ne_colon ch (halldig ch hch)
  obtain ⟨nc, nrest, hnc⟩ := List.exists_cons_of_ne_nil hne
  have hdne : (intDec c).data ≠ [] := by
    rw [hdec]; exact decDigits_ne_nil c.toNat
  obtain ⟨dc, drest, hdc⟩ := List.exists_cons_of_ne_nil hdne
  have hnotall : ((name.data ++ ':' :: (intDec c).data).all fun ch => ch != ':') = false := by
    simp [List.all_append]
  have hfirst : (name.data ++ ':' :: (intDec c).data).dropWhile (fun ch => ch == ':') =
      name.data ++ ':' :: (intDec c).data := by
    rw [hnc]
    apply dropWhile_id_of_head
    have := hcol nc (by rw [hnc]; simp)
    simp only [bne_iff_ne, ne_eq] at this
    simp [this]
  have htake1 : (name.data ++ ':' :: (intDec c).data).takeWhile (fun ch => ch != ':') =
      name.data :=
    takeWhile_append_stop _ _ _ _ hcol (by simp)
  have hdrop1 : (name.data ++ ':' :: (intDec c).data).dropWhile (fun ch => ch != ':') =
      ':' :: (intDec c).data :=
    dropWhile_append_stop _ _ _ _ hcol (by simp)
  have hdrop2 : (':' :: (intDec c).data).dropWhile (fun ch => ch == ':') =
      (intDec c).data := by
    rw [List.dropWhile_cons]
    simp only [beq_self_eq_true, if_true]
    rw [hdc]
    apply dropWhile_id_of_head
    have := hallne dc (by rw [hdc]; simp)
    simp only [bne_iff_ne, ne_eq] at this
    simp [this]
  have htake2 : ((intDec c).data).takeWhile (fun ch => ch != ':') = (intDec c).data :=
    takeWhile_all_of _ _ hallne
  have hatoi : atoiChars (intDec c).data = c := by
    rw [hdec, atoiChars_decDigits, Int.toNat_of_nonneg (by omega)]
  unfold parseCostLine
  simp only [hdata, hnotall, Bool.false_eq_true, if_false, hfirst, htake1, hdrop1,
    hdrop2, htake2, hatoi]
  rw [if_neg (by simp [hnc]), if_neg (by simp [hdc])]

/-- A function record whose stored cost is the literal constant `p.2`. -/
def mkConstWF (p : String × Int) : WFunc := ⟨p.1, some (.const p.2), []⟩

/-- The cost-file line `writeCost` emits for a constant-cost entry. -/
def costLineOf (p : String × Int) : String := p.1 ++ ":" ++ intDec p.2

lemma writeCostEntries_consts (fuel : Nat) (env : GEnv) (fs : List (String × Int))
    (h : ∀ p ∈ fs, 0 < p.2 ∧ p.2 < pow2 31) :
    writeCostEntries fuel env (fs.map mkConstWF) = .ok (fs.map costLineOf) := by
  induction fs with
  | nil => rfl
  | cons p rest ih =>
    obtain ⟨hc1, hc2⟩ := h p (by simp)
    have hpos : (0 : Int) < pow2 31 := by unfold pow2; norm_num
    have h64 : swrap 64 p.2 = p.2 :=
      swrap64_eq p.2 (by unfold pow2 at *; omega) (by unfold pow2 at *; omega)
    have h32 : swrap 32 p.2 = p.2 := swrap32_eq p.2 (by omega) hc2
    have hi := ih (fun q hq => h q (by simp [hq]))
    simp [writeCostEntries, mkConstWF, costToSCEV, mkConst64, h64, isCNC, hi,
      scevToCost, getConstCostWithoutAssert, hasConstCost, h32, hc1, costLineOf,
      printCost]

lemma readCostLines_generated (fs : List (String × Int))
    (h : ∀ p ∈ fs, 0 < p.2 ∧ p.1.data ≠ [] ∧ ∀ ch ∈ p.1.data, (ch != ':') = true) :
    readCostLines (fs.map costLineOf) = fs := by
  induction fs with
  | nil => rfl
  | cons p rest ih =>
    obtain ⟨hc, hne, hcol⟩ := h p (by simp)
    simp only [List.map_cons, readCostLines, costLineOf,
      parseCostLine_generated p.1 p.2 hc hne hcol,
      ih (fun q hq => h q (by simp [hq]))]

/-- C3 (amended).  `writeCost` emits the first line `Cost File` and
then, for every internal function with a recorded cost whose
simplification is a positive (int-truncated) constant, the line
`name:<printed cost>` — but the printed text is the UNSIMPLIFIED stored
expression, so the write/read round trip is guaranteed only for
functions whose stored cost is literally a constant.  For those,
`readCost` on the written file reconstructs exactly the same constants;
an unset input-file path is accepted with no entries; and a name absent
from the table is charged the configured default library cost by the
instantaneous cost model. -/
theorem claim_C3 (fuel : Nat) (env : GEnv) (fs : List (String × Int))
    (h : ∀ p ∈ fs, 0 < p.2 ∧ p.2 < pow2 31 ∧ p.1.data ≠ [] ∧
      ∀ ch ∈ p.1.data, (ch != ':') = true) :
    (∀ gs ls, writeCost fuel env gs = .ok ls → ls.head? = some "Cost File") ∧
    writeCost fuel env (fs.map mkConstWF) = .ok ("Cost File" :: fs.map costLineOf) ∧
    readCost true (some ("Cost File" :: fs.map costLineOf)) = some fs ∧
    (∀ file, readCost false file = some []) ∧
    (∀ (e : CostEnv) f, e.libraryCost f = none → e.moduleFuncs f = false →
      getInstCostForIC e (.callI ⟨some f, false⟩) =
        .ok (.const (1 + getLibCallCost e))) := by
  refine ⟨?_, ?_, ?_, fun file => rfl, ?_⟩
  · intro gs ls hok
    unfold writeCost at hok
    cases hw : writeCostEntries fuel env gs with
    | error u => rw [hw] at hok; simp [Except.map] at hok
    | ok l =>
      rw [hw] at hok
      simp only [Except.map] at hok
      cases hok
      rfl
  · unfold writeCost
    rw [writeCostEntries_consts fuel env fs (fun p hp => ⟨(h p hp).1, (h p hp).2.1⟩)]
    rfl
  · unfold readCost
    rw [if_neg (by simp)]
    simp only [readCostLines_generated fs
      (fun p hp => ⟨(h p hp).1, (h p hp).2.2.1, (h p hp).2.2.2⟩)]
    simp
  · intro e f hf hm
    simp [getInstCostForIC, getConstantInstCost, checkIfExternalLibraryCall, hf, hm]

/-- An empty pair of cost tables. -/
def cex3Env : GEnv := ⟨fun _ => none, fun _ => none⟩

/-- C3, counterexample to the claim as stated: a stored cost
`(+ 2 3)` simplifies to the positive constant 5, so `writeCost` emits a
line for it — but the line is `f:(+ 2 3 )` (the printed unsimplified
expression), not `f:5`, and `readCost` on that same file runs `atoi` on
`(+ 2 3 )` and reconstructs the constant 0 ≠ 5. -/
theorem claim_C3_counterexample :
    writeCost 1 cex3Env [⟨"f", some (.add [.const 2, .const 3]), []⟩] =
      .ok ["Cost File", "f:(+ 2 3 )"] ∧
    readCost true (some ["Cost File", "f:(+ 2 3 )"]) = some [("f", 0)] ∧
    simplifyCostM 1 cex3Env [] (.add [.const 2, .const 3]) = some (.const 5) ∧
    (0 : Int) ≠ 5 := by
  refine ⟨?_, by rfl, ?_, by norm_num⟩
  · simp [writeCost, writeCostEntries, cex3Env, costToSCEV, costToSCEVList,
      addFromParts, optBad, isCNC, mkConst64, swrap, uns, pow2, getAddExprM,
      headWidth, widthOf, isConstE, constValOf, scevToCost, getConstCostWithoutAssert,
      hasConstCost, printCost, printNary, printOps, intDec, decDigits, Nat.digitChar,
      Except.map]
  · simp [simplifyCostM, cex3Env, costToSCEV, costToSCEVList, addFromParts, optBad,
      isCNC, mkConst64, swrap, uns, pow2, getAddExprM, headWidth, widthOf, isConstE,
      constValOf, scevToCost]

/-- C3, witness: the amended round trip applied at a concrete
single-entry table. -/
theorem claim_C3_witness :
    writeCost 1 cex3Env ([("g", 7)].map mkConstWF) =
      .ok ("Cost File" :: [("g", 7)].map costLineOf) ∧
    readCost true (some ("Cost File" :: [("g", 7)].map costLineOf)) =
      some [("g", 7)] := by
  have h := claim_C3 1 cex3Env [("g", 7)] (by decide)
  exact ⟨h.2.1, h.2.2.1⟩

/-! ## The emitted probe (claims C4 and C5) -/

/-- The configuration the probe emitter bakes into the emitted IR.
`cycleThreshold` stands for `int threshold = 0.9 * TargetIntervalInCycles`
(line 10015), which the source computes in floating point; no claim
depends on its value, so it is kept opaque. -/
structure ProbeCfg where
  instGran : Nat
  targetInterval : Int
  targetIntervalInCycles : Int
  cycleThreshold : Int

/-- The thread-local runtime state an emitted probe manipulates:
`LocalLC` (the clock), `lc_disabled_count` (the guard depth),
`LastCycleTS`, the current value of the thread-local handler pointer
`intvActionHook` (an identifier), and the trace of handler invocations
`(hook, argument)` in order. -/
structure RTState where
  localLC : Int
  disabled : Int
  lastCycleTS : Int
  hook : Nat
  trace : List (Nat × Int)

/-- A handler environment: what the handler with a given identifier
does to the runtime state when invoked with the clock argument. -/
def Handlers : Type := Nat → Int → RTState → RTState

/-- `getCostOfInstrumentation` (line 9982). -/
def getCostOfInstrumentation (g : Nat) : Int :=
  if checkIfInstGranIsDet g then 9
  else if checkIfInstGranIsIntermediate g then 15
  else if checkIfInstGranCycleBasedCounter g then 35
  else 0

/-- `pushToMLCfromTLLC` (line 10076), thread-local configuration: store
the pre-loaded guard depth plus one (when a guard load was passed),
store `getCostOfInstrumentation()` into `LocalLC`, store `currTSC` into
`LastCycleTS` (cycle-gated callers), load `intvActionHook` and call it
with the clock value, then re-load `lc_disabled_count` and store the
reloaded value minus one. -/
def pushToMLCfromTLLC (cfg : ProbeCfg) (handlers : Handlers) (loadedLC : Option Int)
    (loadDisFlag : Option Int) (currTSC : Option Int) (s : RTState) : RTState :=
  let s1 :=
    match loadDisFlag with
    | some d => { s with disabled := d + 1 }
    | none => s
  let s2 := { s1 with localLC := getCostOfInstrumentation cfg.instGran }
  let s3 :=
    match currTSC with
    | some t => { s2 with lastCycleTS := t }
    | none => s2
  let valLC :=
    match loadedLC with
    | some v => v
    | none => s3.localLC
  let s4 := handlers s3.hook valLC { s3 with trace := s3.trace ++ [(s3.hook, valLC)] }
  match loadDisFlag with
  | some _ => { s4 with disabled := s4.disabled - 1 }
  | none => s4

/-- `pushToMLCfromTLLCifTSCExceeded` (line 9999): read the cycle counter
(`now`), and either push (cycle delta at or above the threshold) or
lower `LocalLC` to `TargetInterval / 2 + getCostOfInstrumentation()`
without invoking the handler. -/
def pushToMLCfromTLLCifTSCExceeded (cfg : ProbeCfg) (handlers : Handlers)
    (loadedLC : Int) (loadDisFlag : Option Int) (now : Int) (s : RTState) : RTState :=
  let timeDiff := sub64 now s.lastCycleTS
  if uge64 timeDiff cfg.cycleThreshold then
    pushToMLCfromTLLC cfg handlers (some loadedLC) loadDisFlag (some now) s
  else
    { s with localLC := cfg.targetInterval.tdiv 2 + getCostOfInstrumentation cfg.instGran }

/-- The interval the commit condition compares against
(`testNpushMLCfromTLLC`, lines 10340-10344). -/
def probeTarget (cfg : ProbeCfg) : Int :=
  if checkIfInstGranCycleBasedCounter cfg.instGran then cfg.targetIntervalInCycles
  else cfg.targetInterval

/-- `testNpushMLCfromTLLC` (line 10337): commit exactly when the
post-increment clock value is unsigned-greater than the target. -/
def testNpushMLCfromTLLC (cfg : ProbeCfg) (handlers : Handlers) (loadedLC : Int)
    (loadDisFlag : Option Int) (useTSC : Bool) (now : Int) (s : RTState) : RTState :=
  if ugt64 loadedLC (probeTarget cfg) then
    if useTSC then pushToMLCfromTLLCifTSCExceeded cfg handlers loadedLC loadDisFlag now s
    else pushToMLCfromTLLC cfg handlers (some loadedLC) loadDisFlag none s
  else s

/-- `incrementTLLC` (line 9886): load `LocalLC`, add the cost, store
back; the loaded-and-incremented value is returned for the commit test. -/
def incrementTLLC (costVal : Int) (s : RTState) : Int × RTState :=
  let inc := add64 costVal s.localLC
  (inc, { s with localLC := inc })

/-- `incrementTLLCWithCycles` (line 9938). -/
def incrementTLLCWithCycles (now : Int) (s : RTState) : Int × RTState :=
  let timeDiff := sub64 now s.lastCycleTS
  let inc := add64 timeDiff s.localLC
  (inc, { s with localLC := inc, lastCycleTS := now })

/-- `eInstrumentType` (line 127). -/
inductive InstrumentType where
  | allIR
  | pushOnCycles
  | incrOnCycles

/-- `instrumentGlobal` (line 6027): increment then test-and-push. -/
def instrumentGlobal (cfg : ProbeCfg) (handlers : Handlers) (ty : InstrumentType)
    (val : Option Int) (loadDisFlag : Option Int) (now : Int) (s : RTState) : RTState :=
  let r :=
    match ty with
    | .incrOnCycles => incrementTLLCWithCycles now s
    | _ => incrementTLLC (val.getD 0) s
  let useTSC :=
    match ty with
    | .pushOnCycles => true
    | _ => false
  testNpushMLCfromTLLC cfg handlers r.1 loadDisFlag useTSC now r.2

/-- `instrumentIfLCEnabled` (line 10315): load the thread-local
`lc_disabled_count` and run increment-and-commit only when it is zero;
the loaded value is passed down as `loadDisFlag`. -/
def instrumentIfLCEnabled (cfg : ProbeCfg) (handlers : Handlers) (ty : InstrumentType)
    (val : Option Int) (now : Int) (s : RTState) : RTState :=
  if s.disabled = 0 then instrumentGlobal cfg handlers ty val (some s.disabled) now s
  else s

/-- `instrumentCI` (line 6469): the probe emitted for each optimized
granularity.  The two fiber modes (14 and 15) call `instrumentGlobal`
directly — no guard load, no `loadDisFlag`. -/
def instrumentCI (cfg : ProbeCfg) (handlers : Handlers) (val : Int) (now : Int)
    (s : RTState) : Except Unit RTState :=
  if cfg.instGran == OPTIMIZE_HEURISTIC || cfg.instGran == OPTIMIZE_HEURISTIC_WITH_TL ||
      cfg.instGran == OPTIMIZE_ACCURATE then
    .ok (instrumentIfLCEnabled cfg handlers .allIR (some val) now s)
  else if cfg.instGran == OPTIMIZE_INTERMEDIATE then
    .ok (instrumentIfLCEnabled cfg handlers .pushOnCycles (some val) now s)
  else if cfg.instGran == OPTIMIZE_HEURISTIC_INTERMEDIATE_FIBER then
    .ok (instrumentGlobal cfg handlers .pushOnCycles (some val) none now s)
  else if cfg.instGran == OPTIMIZE_HEURISTIC_FIBER then
    .ok (instrumentGlobal cfg handlers .allIR (some val) none now s)
  else if cfg.instGran == OPTIMIZE_CYCLES then
    .ok (instrumentIfLCEnabled cfg handlers .incrOnCycles none now s)
  else .error ()

/-- C4 (amended).  For every emitted probe: the commit fires exactly
when the post-increment clock strictly exceeds the target interval
(`TargetIntervalInCycles` in the cycle-counter modes 8/17/18,
`TargetInterval` otherwise); on commit the thread-local clock is reset
to the probe overhead `getCostOfInstrumentation()` — not to
half-interval plus overhead — before the handler is invoked through the
thread-local `intvActionHook` pointer read at the call site, with the
post-increment value as argument; in push-on-cycles probes a clock
excess whose cycle delta is below the threshold instead lowers the
clock to `TargetInterval / 2 + overhead` and invokes no handler. -/
theorem claim_C4 (cfg : ProbeCfg) (handlers : Handlers) (lc flag now : Int)
    (s : RTState) :
    (checkIfInstGranCycleBasedCounter cfg.instGran = true →
      probeTarget cfg = cfg.targetIntervalInCycles) ∧
    (checkIfInstGranCycleBasedCounter cfg.instGran = false →
      probeTarget cfg = cfg.targetInterval) ∧
    (ugt64 lc (probeTarget cfg) = false →
      testNpushMLCfromTLLC cfg handlers lc (some flag) false now s = s) ∧
    (ugt64 lc (probeTarget cfg) = true →
      testNpushMLCfromTLLC cfg handlers lc (some flag) false now s =
        (let sPre : RTState :=
          { localLC := getCostOfInstrumentation cfg.instGran, disabled := flag + 1,
            lastCycleTS := s.lastCycleTS, hook := s.hook,
            trace := s.trace ++ [(s.hook, lc)] }
         let s4 := handlers s.hook lc sPre
         { s4 with disabled := s4.disabled - 1 })) ∧
    (ugt64 lc (probeTarget cfg) = true →
      uge64 (sub64 now s.lastCycleTS) cfg.cycleThreshold = false →
      testNpushMLCfromTLLC cfg handlers lc (some flag) true now s =
        { s with localLC :=
            cfg.targetInterval.tdiv 2 + getCostOfInstrumentation cfg.instGran }) ∧
    (ugt64 lc (probeTarget cfg) = true →
      uge64 (sub64 now s.lastCycleTS) cfg.cycleThreshold = true →
      testNpushMLCfromTLLC cfg handlers lc (some flag) true now s =
        (let sPre : RTState :=
          { localLC := getCostOfInstrumentation cfg.instGran, disabled := flag + 1,
            lastCycleTS := now, hook := s.hook,
            trace := s.trace ++ [(s.hook, lc)] }
         let s4 := handlers s.hook lc sPre
         { s4 with disabled := s4.disabled - 1 })) := by
  refine ⟨?_, ?_, ?_, ?_, ?_, ?_⟩
  · intro h; simp [probeTarget, h]
  · intro h; simp [probeTarget, h]
  · intro h; simp [testNpushMLCfromTLLC, h]
  · intro h; simp [testNpushMLCfromTLLC, h, pushToMLCfromTLLC]
  · intro h hc
    simp [testNpushMLCfromTLLC, h, pushToMLCfromTLLCifTSCExceeded, hc]
  · intro h hc
    simp [testNpushMLCfromTLLC, h, pushToMLCfromTLLCifTSCExceeded, hc,
      pushToMLCfromTLLC]

/-- A probe configuration for the default optimized thread-local mode:
granularity 2, `TargetInterval = 1000`. -/
def c4Cfg : ProbeCfg := ⟨OPTIMIZE_HEURISTIC_WITH_TL, 1000, 0, 0⟩

/-- Handlers that leave the state unchanged. -/
def idHandlers : Handlers := fun _ _ st => st

/-- C4, counterexample to the claim as stated: committing with
post-increment clock 1001 > T = 1000 leaves the clock at the probe
overhead 9, not at half-interval plus overhead 509; the handler is
invoked once through the current hook with the post-increment value. -/
theorem claim_C4_counterexample :
    testNpushMLCfromTLLC c4Cfg idHandlers 1001 (some 0) false 0 ⟨0, 0, 0, 7, []⟩ =
      ⟨9, 0, 0, 7, [(7, 1001)]⟩ ∧
    (9 : Int) ≠ c4Cfg.targetInterval.tdiv 2 + getCostOfInstrumentation c4Cfg.instGran := by
  constructor
  · rfl
  · decide

/-- C4, witness: the amended theorem applied at the concrete commit of
the counterexample configuration. -/
theorem claim_C4_witness :
    testNpushMLCfromTLLC c4Cfg idHandlers 1001 (some 0) false 0 ⟨0, 0, 0, 7, []⟩ =
      (let sPre : RTState :=
         { localLC := getCostOfInstrumentation c4Cfg.instGran,
           disabled := 0 + 1, lastCycleTS := 0, hook := 7,
           trace := [] ++ [(7, 1001)] }
       let s4 := idHandlers 7 1001 sPre
       { s4 with disabled := s4.disabled - 1 }) :=
  (claim_C4 c4Cfg idHandlers 1001 0 0 ⟨0, 0, 0, 7, []⟩).2.2.2.1 (by decide)

/-- C5 (amended).  Probes emitted through `instrumentIfLCEnabled` (all
non-fiber optimized modes) load `lc_disabled_count` and execute the
increment and commit only when it is zero; around the handler call the
probe stores the pre-call depth plus one (1) before the call and, after
the handler returns, re-loads `lc_disabled_count` and stores the
reloaded value minus one, so a handler that itself raised and lowered
the counter nests correctly.  The fiber modes (14/15) emit the probe
through `instrumentGlobal` with no guard load at all. -/
theorem claim_C5 (cfg : ProbeCfg) (handlers : Handlers) (v now : Int) (s : RTState) :
    (s.disabled ≠ 0 →
      instrumentIfLCEnabled cfg handlers .allIR (some v) now s = s) ∧
    (s.disabled = 0 → ugt64 (add64 v s.localLC) (probeTarget cfg) = false →
      instrumentIfLCEnabled cfg handlers .allIR (some v) now s =
        { s with localLC := add64 v s.localLC }) ∧
    (s.disabled = 0 → ugt64 (add64 v s.localLC) (probeTarget cfg) = true →
      instrumentIfLCEnabled cfg handlers .allIR (some v) now s =
        (let inc := add64 v s.localLC
         let sPre : RTState :=
          { localLC := getCostOfInstrumentation cfg.instGran, disabled := 0 + 1,
            lastCycleTS := s.lastCycleTS, hook := s.hook,
            trace := s.trace ++ [(s.hook, inc)] }
         let s4 := handlers s.hook inc sPre
         { s4 with disabled := s4.disabled - 1 })) ∧
    (cfg.instGran = OPTIMIZE_HEURISTIC_FIBER →
      instrumentCI cfg handlers v now s =
        .ok (instrumentGlobal cfg handlers .allIR (some v) none now s)) := by
  refine ⟨?_, ?_, ?_, ?_⟩
  · intro h; simp [instrumentIfLCEnabled, h]
  · intro h0 h
    simp [instrumentIfLCEnabled, h0, instrumentGlobal, incrementTLLC,
      testNpushMLCfromTLLC, h]
  · intro h0 h
    simp [instrumentIfLCEnabled, h0, instrumentGlobal, incrementTLLC,
      testNpushMLCfromTLLC, h, pushToMLCfromTLLC]
  · intro h
    simp [instrumentCI, h, OPTIMIZE_HEURISTIC_FIBER, OPTIMIZE_HEURISTIC,
      OPTIMIZE_HEURISTIC_WITH_TL, OPTIMIZE_ACCURATE, OPTIMIZE_INTERMEDIATE,
      OPTIMIZE_HEURISTIC_INTERMEDIATE_FIBER]

/-- A fiber-mode probe configuration: granularity 14, large target. -/
def c5Cfg : ProbeCfg := ⟨OPTIMIZE_HEURISTIC_FIBER, 1000000, 0, 0⟩

/-- C5, counterexample to the claim as stated: in fiber mode 14 the
emitted probe has no guard — with `lc_disabled_count = 5 ≠ 0` the
increment still executes. -/
theorem claim_C5_counterexample :
    instrumentCI c5Cfg idHandlers 7 0 ⟨0, 5, 0, 3, []⟩ =
      .ok ⟨7, 5, 0, 3, []⟩ ∧ (5 : Int) ≠ 0 := by
  exact ⟨rfl, by norm_num⟩

/-- Handlers that raise the guard depth by 41 and do not lower it. -/
def bumpHandlers : Handlers := fun _ _ st => { st with disabled := st.disabled + 41 }

/-- C5, witness: the amended theorem applied at a concrete guarded
commit whose handler leaves the depth raised; the probe stores the
reloaded depth minus one (41), not the pre-call value (0). -/
theorem claim_C5_witness :
    instrumentIfLCEnabled c4Cfg bumpHandlers .allIR (some 1001) 0 ⟨0, 0, 0, 7, []⟩ =
      (let inc := add64 1001 0
       let sPre : RTState :=
         { localLC := getCostOfInstrumentation c4Cfg.instGran,
           disabled := 0 + 1, lastCycleTS := 0, hook := 7,
           trace := [] ++ [(7, inc)] }
       let s4 := bumpHandlers 7 inc sPre
       { s4 with disabled := s4.disabled - 1 }) :=
  (claim_C5 c4Cfg bumpHandlers 1001 0 ⟨0, 0, 0, 7, []⟩).2.2.1 rfl (by decide)

/-! ## Unit-container instantaneous evaluation and the loop transformer
(claims C6 and C7) -/

/-- The instruction walk of `UnitLCC::getCostForIC` (lines 1965-2012),
over the constant per-instruction costs of the unit's instruction
range: a middle instruction whose addition would exceed the commit
interval commits the running total at that instruction and restarts
from the instruction's own cost; the last instruction adds its cost and
commits everything when `toInstrument` is set or the total exceeds the
commit interval.  Returns the remaining (returned) cost and the
instrumentation markers `(instruction index, committed cost)`. -/
def unitICgo (C : Int) (toInstrument : Bool) :
    List Int → Int → Nat → Int × List (Nat × Int)
  | [], total, _ => (total, [])
  | [c], total, i =>
    let t := total + c
    if toInstrument || t > C then (0, [(i, t)]) else (t, [])
  | c :: rest, total, i =>
    if total + c > C then
      let r := unitICgo C toInstrument rest c (i + 1)
      (r.1, (i, total) :: r.2)
    else unitICgo C toInstrument rest (total + c) (i + 1)

/-- `UnitLCC::getCostForIC` on a unit container with instruction costs
`instCosts` and incoming initial cost `initial`. -/
def unitCostForIC (C : Int) (toInstrument : Bool) (instCosts : List Int)
    (initial : Int) : Int × List (Nat × Int) :=
  unitICgo C toInstrument instCosts initial 0

/-- The cost a unit container returns to its parent never exceeds the
commit interval: the evaluator commits any excess in place.  This is
the invariant that bounds every body cost scheduled for strip-mining. -/
lemma unitICgo_le (C : Int) (ti : Bool) (l : List Int) (tot : Int) (i : Nat)
    (hC : 0 ≤ C) (hl : l ≠ []) : (unitICgo C ti l tot i).1 ≤ C := by
  induction l generalizing tot i with
  | nil => exact absurd rfl hl
  | cons c rest ih =>
    cases rest with
    | nil =>
      simp only [unitICgo]
      split
      · simpa using hC
      · next h =>
        simp only [Bool.or_eq_true, decide_eq_true_eq, not_or] at h
        simpa using le_of_not_lt h.2
    | cons c2 rest2 =>
      simp only [unitICgo]
      split
      · exact ih c (i + 1) (by simp)
      · exact ih (tot + c) (i + 1) (by simp)

/-- The result of the `instrumentSelfLoop` / `instrumentSESELoop`
decision logic. -/
inductive LoopXformResult where
  | skippedZeroCost
  | instrumentEveryIteration (cost : Int)
  | stripMined (inner : Int)
  | assertFailed
deriving DecidableEq

/-- The decision core shared by `instrumentSelfLoop` (lines 6786-6850)
and `instrumentSESELoop` (lines 6893-6958): a zero scheduled cost is
skipped with a warning; the asserts demand `bodyCost ≤ CommitInterval`
and a non-negative inner iteration count; `inner = CommitInterval /
bodyCost` (C `int` division); when `inner ≤ 10` (the
`innerIterationThresh`) or scalar evolution recognizes no induction
variable, or when the transformation call returns null, the loop falls
back to instrumenting every iteration with the body cost
(`instrumentForIC`); otherwise it is strip-mined. -/
def loopXformDecision (commitInterval bodyCost : Int) (hasIndVar xformSucceeds : Bool) :
    LoopXformResult :=
  if bodyCost = 0 then .skippedZeroCost
  else
    let inner := cdiv commitInterval bodyCost
    if ¬(bodyCost ≤ commitInterval) then .assertFailed
    else if ¬(0 ≤ inner) then .assertFailed
    else if inner ≤ 10 || !hasIndVar then .instrumentEveryIteration bodyCost
    else if !xformSucceeds then .instrumentEveryIteration bodyCost
    else .stripMined inner

/-- C6 (confirmed).  For every self-loop or SESE loop scheduled for
strip-mining with a known constant body cost `b > 0` (the scheduler
stores an evaluator result, which the second conjunct bounds by the
commit interval), the transformer computes `inner = CommitInterval / b`
and falls back to instrumenting every iteration with the body cost
exactly when `inner ≤ 10`, or no induction variable is recognized, or
the transformation itself fails; otherwise it strip-mines with that
inner bound. -/
theorem claim_C6 (C b : Int) (hiv xf : Bool) (hb : 0 < b) (hbC : b ≤ C) :
    (loopXformDecision C b hiv xf =
      if cdiv C b ≤ 10 || !hiv || !xf then .instrumentEveryIteration b
      else .stripMined (cdiv C b)) ∧
    (∀ (ti : Bool) (l : List Int) (tot : Int), l ≠ [] → 0 ≤ C →
      (unitCostForIC C ti l tot).1 ≤ C) := by
  constructor
  · have hC : (0 : Int) < C := lt_of_lt_of_le hb hbC
    have hinner : 0 ≤ cdiv C b := Int.tdiv_nonneg (by omega) (by omega)
    unfold loopXformDecision cdiv
    rw [if_neg (by omega), if_neg (by omega), if_neg (by simpa [cdiv] using hinner)]
    rcases h10 : decide (C.tdiv b ≤ 10) with _ | _ <;>
      rcases hhiv : hiv with _ | _ <;> rcases hxf : xf with _ | _ <;>
      simp_all [cdiv]
  · intro ti l tot hl hC
    exact unitICgo_le C ti l tot 0 hC hl

/-- C6, witness: `C = 1000`, `b = 5` gives `inner = 200 > 10`; with an
induction variable and a successful transformation the loop is
strip-mined with inner bound 200 (spec §8 scenario 4). -/
theorem claim_C6_witness :
    loopXformDecision 1000 5 true true = .stripMined 200 ∧
    (unitCostForIC 1000 false [600, 600] 0).1 ≤ 1000 := by
  have h := claim_C6 1000 5 true true (by norm_num) (by norm_num)
  constructor
  · rw [h.1]; decide
  · exact h.2 false [600, 600] 0 (by simp) (by norm_num)

/-! ## The fence-without-cost check (claim C7) -/

/-- The container-construction walk of `makeContainersOfBB`
(lines 7328-7429) over a block's instructions (after the leading phis),
parameterized by the `hasFence` flags of already-processed internal
functions (`hfOpt f = none` when `f` is not in `computedFuncInfo`).
Arguments: remaining instructions, current slice length, the `hasFence`
accumulator.  Returns the slice lengths, the diagnostics printed, and
the final `hasFence` value.

At a configured fence whose cost is missing from
`libraryInstructionCosts` the source prints the diagnostic and then
executes `assert("Fence function costs are not found in the library
function cost repository!")` (line 7343) — the assert argument is a
string literal, a non-null pointer, so the condition is constant `true`
and the assertion can never fire: construction continues and the fence
still terminates its slice. -/
def mkContainers (e : CostEnv) (hfOpt : String → Option Bool) :
    List Instr → Nat → Bool → (List Nat × List String × Bool)
  | [], n, acc => (if n > 0 then [n] else [], [], acc)
  | I :: rest, n, acc =>
    match I with
    | .callI ci =>
      match ci.callee with
      | some f =>
        if isFenceFunc e.fenceNames f then
          let diags :=
            if (e.libraryCost f).isSome then []
            else ["Fence function " ++ f ++ " cost is not found in the library. Aborting"]
          let r := mkContainers e hfOpt rest 0 true
          ((n + 1) :: r.1, diags ++ r.2.1, r.2.2)
        else
          let acc2 :=
            match hfOpt f with
            | some b => b
            | none => acc
          if acc2 then
            let r := mkContainers e hfOpt rest 0 acc2
            ((n + 1) :: r.1, r.2.1, r.2.2)
          else mkContainers e hfOpt rest (n + 1) acc2
      | none => mkContainers e hfOpt rest (n + 1) acc
    | _ => mkContainers e hfOpt rest (n + 1) acc

/-- A configuration with `pthread_mutex_lock` as a fence and no cost
tables (the fence has no recorded cost). -/
def c7Env : CostEnv where
  computedFuncCost := fun _ => none
  libraryCost := fun _ => none
  memOpsCost := 1
  extLibFuncCost := 10
  instGran := OPTIMIZE_HEURISTIC_WITH_TL
  moduleFuncs := fun _ => false
  fenceNames := ["pthread_mutex_lock"]
  threadFuncs := []
  callerArgs := []

/-- C7 (code bug).  On a block containing a call to the configured
fence `pthread_mutex_lock` with no cost in the library table,
`makeContainersOfBB` prints the diagnostic but returns normally and
keeps building containers past the fence — the `assert` at line 7343 is
applied to a string literal and is a tautology, although the printed
message says "Aborting" and the claim (and the sibling check in the
cost model) require a fatal stop.  The cost model itself
(`getInstCostForPC`, line 931) does fail fatally on the same call. -/
theorem claim_C7 :
    mkContainers c7Env (fun _ => none)
      [.other, .callI ⟨some "pthread_mutex_lock", false⟩, .other] 0 false =
      ([2, 1],
       ["Fence function pthread_mutex_lock cost is not found in the library. Aborting"],
       true) ∧
    getInstCostForPC 1 c7Env (.callI ⟨some "pthread_mutex_lock", false⟩) =
      .error () := by
  constructor
  · rfl
  · simp [getInstCostForPC, c7Env, isFenceFunc]

/-! ## The reducer fixed point (claim C8) -/

/-- The global-list surgery a successful production rule performs
(`checkNCreatePathLCC` lines 3710-3714, `checkNCreateBranchLCC` lines
4237-4246, `checkNCreateLoopLCC` lines 4681-4687): one matched node
(`anchor`) is erased and the freshly allocated composite (`newId`) is
inserted at its position, and the other consumed nodes (`erased` — the
path successor; the post-dominator and the middle branch nodes; the
loop header, body and successor) are erased from the list. -/
structure Surgery where
  anchor : Nat
  newId : Nat
  erased : List Nat

/-- What `eraseFromGlobalLCCList` (line 3660) asserts of a surgery:
every erased node is present (each rule consumes nodes currently on the
global outer list), the consumed set is non-empty and duplicate-free,
and the new id is fresh (`lccIDGen++`). -/
def Surgery.Valid (s : Surgery) (l : List Nat) : Prop :=
  s.anchor ∈ l ∧ s.erased ≠ [] ∧ s.erased.Nodup ∧ s.anchor ∉ s.erased ∧
    (∀ o ∈ s.erased, o ∈ l) ∧ s.newId ∉ l ∧ s.newId ∉ s.erased

instance (s : Surgery) (l : List Nat) : Decidable (s.Valid l) := by
  unfold Surgery.Valid
  infer_instance

/-- Perform the surgery on the global list. -/
def applySurgery (s : Surgery) (l : List Nat) : List Nat :=
  s.erased.foldl (fun acc o => acc.erase o)
    (l.map fun x => if x = s.anchor then s.newId else x)

lemma foldl_erase_length (es m : List Nat) (hes : es.Nodup)
    (hmem : ∀ o ∈ es, o ∈ m) (hm : m.Nodup) :
    (es.foldl (fun acc o => acc.erase o) m).length = m.length - es.length ∧
      (es.foldl (fun acc o => acc.erase o) m).Nodup := by
  induction es generalizing m with
  | nil => simpa using hm
  | cons e rest ih =>
    simp only [List.foldl_cons]
    have he : e ∈ m := hmem e (by simp)
    have hlen : (m.erase e).length = m.length - 1 := List.length_erase_of_mem he
    have hrest : ∀ o ∈ rest, o ∈ m.erase e := by
      intro o ho
      exact (List.mem_erase_of_ne (by
        intro hoe
        exact (List.nodup_cons.mp hes).1 (hoe ▸ ho))).mpr (hmem o (by simp [ho]))
    obtain ⟨h1, h2⟩ := ih (m.erase e) (List.nodup_cons.mp hes).2 hrest (hm.erase e)
    refine ⟨?_, h2⟩
    rw [h1, hlen, List.length_cons]
    omega

lemma applySurgery_shrinks (s : Surgery) (l : List Nat) (hv : s.Valid l)
    (hl : l.Nodup) :
    (applySurgery s l).length < l.length ∧ (applySurgery s l).Nodup := by
  obtain ⟨hanchor, hne, hnd, hnotin, hmem, hfresh, hfresh2⟩ := hv
  set m := l.map fun x => if x = s.anchor then s.newId else x with hmdef
  have hmlen : m.length = l.length := by simp [hmdef]
  have hmnd : m.Nodup := by
    refine hl.map_on ?_
    intro x hx y hy hxy
    by_cases hxa : x = s.anchor <;> by_cases hya : y = s.anchor <;>
      simp [hxa, hya] at hxy ⊢
    · exact absurd (hxy ▸ hy) hfresh
    · exact absurd (hxy ▸ hx) hfresh
    · exact hxy
  have hmm : ∀ o ∈ s.erased, o ∈ m := by
    intro o ho
    have hol : o ∈ l := hmem o ho
    have hoa : o ≠ s.anchor := fun h => hnotin (h ▸ ho)
    rw [hmdef, List.mem_map]
    exact ⟨o, hol, by simp [hoa]⟩
  obtain ⟨h1, h2⟩ := foldl_erase_length s.erased m hnd hmm hmnd
  refine ⟨?_, h2⟩
  unfold applySurgery
  rw [← hmdef, h1, hmlen]
  have : 0 < s.erased.length := List.length_pos.mpr hne
  have : 0 < l.length := List.length_pos.mpr (List.ne_nil_of_mem hanchor)
  omega

/-- The three production rules the reducer actually compiles in
(`checkNApplyRules`, line 5592: Path, Branch, Loop; cases 4-7 are
`#if 0`).  Each rule inspects a node and the global list and, when its
CFG-side conditions (dominators, fences, loop shape — external analyses)
match, reports its surgery. -/
structure RuleSys where
  rule1 : Nat → List Nat → Option Surgery
  rule2 : Nat → List Nat → Option Surgery
  rule3 : Nat → List Nat → Option Surgery

/-- Every rule's surgery satisfies the assertions of
`eraseFromGlobalLCCList`: it consumes at least one other existing node
and introduces one fresh node. -/
def RuleSys.valid (R : RuleSys) : Prop :=
  (∀ c l s, R.rule1 c l = some s → s.Valid l) ∧
  (∀ c l s, R.rule2 c l = some s → s.Valid l) ∧
  (∀ c l s, R.rule3 c l = some s → s.Valid l)

/-- `checkNApplyRules` (line 5592): the rules are tried in the listed
order through the fall-through `switch`; the first success wins. -/
def checkNApplyRules (R : RuleSys) (c : Nat) (l : List Nat) : Option Surgery :=
  match R.rule1 c l with
  | some s => some s
  | none =>
    match R.rule2 c l with
    | some s => some s
    | none => R.rule3 c l

/-- The scan of the global outer-LCC list inside `traverseNReduce`
(lines 5660-5664): try the nodes in order against the full list;
at the first success perform the surgery and stop (the `break` that
restarts the iteration over the new list). -/
def scanFrom (R : RuleSys) (l : List Nat) : List Nat → Option (List Nat)
  | [] => none
  | c :: rest =>
    match checkNApplyRules R c l with
    | some s => some (applySurgery s l)
    | none => scanFrom R l rest

/-- One full pass over the global list. -/
def scanOnce (R : RuleSys) (l : List Nat) : Option (List Nat) :=
  scanFrom R l l

/-- The do-while of `traverseNReduce` (lines 5656-5668) with explicit
fuel; the source's outer loop adds nothing because `unknownRuleApplied`
copies a flag that is false whenever the inner loop exits. -/
def reduceLoop (R : RuleSys) : Nat → List Nat → List Nat
  | 0, l => l
  | fuel + 1, l =>
    match scanOnce R l with
    | some l2 => reduceLoop R fuel l2
    | none => l

/-- `traverseNReduce` (line 5649): the list length is enough fuel
because every applied rule strictly shrinks the list. -/
def traverseNReduce (R : RuleSys) (l : List Nat) : List Nat :=
  reduceLoop R l.length l

lemma scanFrom_some (R : RuleSys) (l scan l2 : List Nat)
    (h : scanFrom R l scan = some l2) :
    ∃ c s, checkNApplyRules R c l = some s ∧ l2 = applySurgery s l := by
  induction scan with
  | nil => simp [scanFrom] at h
  | cons c rest ih =>
    simp only [scanFrom] at h
    cases hc : checkNApplyRules R c l with
    | some s =>
      rw [hc] at h
      exact ⟨c, s, hc, by simpa using h.symm⟩
    | none =>
      rw [hc] at h
      exact ih h

lemma checkNApplyRules_valid (R : RuleSys) (hR : R.valid) (c : Nat) (l : List Nat)
    (s : Surgery) (h : checkNApplyRules R c l = some s) : s.Valid l := by
  unfold checkNApplyRules at h
  cases h1 : R.rule1 c l with
  | some s1 => rw [h1] at h; cases h; exact hR.1 c l _ h1
  | none =>
    rw [h1] at h
    cases h2 : R.rule2 c l with
    | some s2 => rw [h2] at h; cases h; exact hR.2.1 c l _ h2
    | none => rw [h2] at h; exact hR.2.2 c l s h

lemma scanOnce_shrinks (R : RuleSys) (hR : R.valid) (m m2 : List Nat)
    (hm : m.Nodup) (h : scanOnce R m = some m2) :
    m2.length < m.length ∧ m2.Nodup := by
  obtain ⟨c, s, hcs, hap⟩ := scanFrom_some R m m m2 h
  have hv := checkNApplyRules_valid R hR c m s hcs
  obtain ⟨h1, h2⟩ := applySurgery_shrinks s m hv hm
  exact ⟨hap ▸ h1, hap ▸ h2⟩

lemma reduceLoop_fixpoint (R : RuleSys) (hR : R.valid) :
    ∀ (fuel : Nat) (l : List Nat), l.Nodup → l.length ≤ fuel →
      scanOnce R (reduceLoop R fuel l) = none := by
  intro fuel
  induction fuel with
  | zero =>
    intro l hnd hlen
    have : l = [] := List.eq_nil_of_length_eq_zero (by omega)
    subst this
    rfl
  | succ fuel ih =>
    intro l hnd hlen
    simp only [reduceLoop]
    cases hs : scanOnce R l with
    | some l2 =>
      obtain ⟨hlt, hnd2⟩ := scanOnce_shrinks R hR l l2 hnd hs
      exact ih l2 hnd2 (by omega)
    | none => exact hs

/-- C8 (confirmed).  The reducer's fixed-point loop terminates for
every input: the rules are tried in the listed order (Path, then
Branch, then Loop — the remaining cases are compiled out), each
successful reduction restarts the scan over the function's global
outer-LCC list, each applied rule strictly reduces the number of outer
LCCs in that list, and the loop exits exactly when a full scan applies
no rule — the returned list admits no further rule application. -/
theorem claim_C8 (R : RuleSys) (hR : R.valid) (l : List Nat) (hl : l.Nodup) :
    (∀ c m s, R.rule1 c m = some s → checkNApplyRules R c m = some s) ∧
    (∀ c m s, R.rule1 c m = none → R.rule2 c m = some s →
      checkNApplyRules R c m = some s) ∧
    (∀ c m, R.rule1 c m = none → R.rule2 c m = none →
      checkNApplyRules R c m = R.rule3 c m) ∧
    (∀ m m2, m.Nodup → scanOnce R m = some m2 → m2.length < m.length) ∧
    scanOnce R (traverseNReduce R l) = none := by
  refine ⟨?_, ?_, ?_, ?_, ?_⟩
  · intro c m s h; simp [checkNApplyRules, h]
  · intro c m s h1 h2; simp [checkNApplyRules, h1, h2]
  · intro c m h1 h2; simp [checkNApplyRules, h1, h2]
  · intro m m2 hm h; exact (scanOnce_shrinks R hR m m2 hm h).1
  · exact reduceLoop_fixpoint R hR l.length l hl le_rfl

/-- A concrete rule system: the Path rule collapses the two-node list
`[0, 1]` into the fresh composite 2; nothing else fires. -/
def demoRules : RuleSys where
  rule1 := fun c l => if c = 0 ∧ l = [0, 1] then some ⟨0, 2, [1]⟩ else none
  rule2 := fun _ _ => none
  rule3 := fun _ _ => none

lemma demoRules_valid : demoRules.valid := by
  refine ⟨?_, ?_, ?_⟩ <;> intro c l s h <;> simp [demoRules] at h
  obtain ⟨⟨hc, hl⟩, hs⟩ := h
  subst hl
  subst hs
  unfold Surgery.Valid
  decide

/-- C8, witness: the theorem applied to the concrete two-node list and
rule system; the reduction reaches a fixed point. -/
theorem claim_C8_witness :
    scanOnce demoRules (traverseNReduce demoRules [0, 1]) = none :=
  (claim_C8 demoRules demoRules_valid [0, 1] (by decide)).2.2.2.2

/-! ## Fences under the instantaneous clock (claim C10) -/

/-- `eClockType` (line 160). -/
def PREDICTIVE : Nat := 0
/-- `eClockType` (line 160). -/
def INSTANTANEOUS : Nat := 1

/-- The fence-list initialization in `runOnModule` (lines 12075-12079):
the two pthread mutex names are inserted only under the predictive
clock. -/
def initFenceList (clockType : Nat) : List String :=
  if clockType = PREDICTIVE then ["pthread_mutex_lock", "pthread_mutex_unlock"]
  else []

/-- What `createContainerCFG` sees as the last instruction of a
predecessor block's last container when drawing an inter-block LCC
edge (lines 7625-7645). -/
inductive LastInst where
  | unreachableI
  | callLast (ci : CallInfo)
  | otherLast
deriving DecidableEq

/-- The fence flag `createContainerCFG` puts on an inter-block edge:
true iff the predecessor's last instruction is an unreachable
terminator or a call to a configured fence. -/
def edgeFenceFlag (fenceNames : List String) (li : LastInst) : Bool :=
  match li with
  | .unreachableI => true
  | .callLast ci =>
    match ci.callee with
    | some f => isFenceFunc fenceNames f
    | none => false
  | .otherLast => false

/-- C10 (confirmed).  The fence name list is populated (with
`pthread_mutex_lock` and `pthread_mutex_unlock`) only when `ClockType`
is `PREDICTIVE`; under the default `INSTANTANEOUS` clock the list stays
empty, so `isFenceFunc` returns false for every callee, the builder
never splits a basic block at a mutex call (every block yields exactly
one unit container when no internal callee carries a fence flag), and
every inter-block LCC edge the builder creates carries a false fence
flag (edges are never drawn out of unreachable-terminated containers,
lines 7615-7623). -/
theorem claim_C10 (e : CostEnv) (hfOpt : String → Option Bool) :
    initFenceList PREDICTIVE = ["pthread_mutex_lock", "pthread_mutex_unlock"] ∧
    initFenceList INSTANTANEOUS = [] ∧
    (∀ f, isFenceFunc (initFenceList INSTANTANEOUS) f = false) ∧
    (e.fenceNames = [] → (∀ f, hfOpt f ≠ some true) →
      ∀ (block : List Instr) (n : Nat),
        mkContainers e hfOpt block n false =
          (if n + block.length > 0 then [n + block.length] else [], [], false)) ∧
    (∀ li : LastInst, li ≠ .unreachableI →
      edgeFenceFlag (initFenceList INSTANTANEOUS) li = false) := by
  refine ⟨rfl, rfl, fun f => rfl, ?_, ?_⟩
  · intro hfe hhf block
    induction block with
    | nil =>
      intro n
      simp [mkContainers]
    | cons I rest ih =>
      intro n
      have harith : n + (I :: rest).length = (n + 1) + rest.length := by
        simp [List.length_cons]; omega
      cases I with
      | callI ci =>
        cases hcal : ci.callee with
        | some f =>
          have hnof : isFenceFunc e.fenceNames f = false := by
            rw [hfe]; rfl
          have hacc : (match hfOpt f with
              | some b => b
              | none => false) = false := by
            cases hh : hfOpt f with
            | some b =>
              cases b with
              | true => exact absurd hh (hhf f)
              | false => rfl
            | none => rfl
          simp only [mkContainers, hcal, hnof, Bool.false_eq_true, if_false, hacc,
            ih (n + 1), harith]
        | none =>
          simp only [mkContainers, hcal, ih (n + 1), harith]
      | phi => simp only [mkContainers, ih (n + 1), harith]
      | load => simp only [mkContainers, ih (n + 1), harith]
      | store => simp only [mkContainers, ih (n + 1), harith]
      | other => simp only [mkContainers, ih (n + 1), harith]
  · intro li hli
    cases li with
    | unreachableI => exact absurd rfl hli
    | callLast ci =>
      cases hc : ci.callee with
      | some f =>
        simp [edgeFenceFlag, hc, isFenceFunc, initFenceList, INSTANTANEOUS, PREDICTIVE]
      | none => simp [edgeFenceFlag, hc]
    | otherLast => rfl

/-- C10, witness: the concrete instantaneous configuration never splits
a block holding a mutex call. -/
theorem claim_C10_witness :
    mkContainers c2Env (fun _ => none)
      [.load, .callI ⟨some "pthread_mutex_lock", false⟩, .store] 0 false =
      ([3], [], false) :=
  ((claim_C10 c2Env (fun _ => none)).2.2.2.1 rfl (fun f => by simp)
    [.load, .callI ⟨some "pthread_mutex_lock", false⟩, .store] 0).trans (by decide)

/-! ## The Branch container evaluators (claim C1) -/

/-- Truncation toward zero of a rational, modelling the C cast
`(long)avgFloatingBranchCost` (the source accumulates the weighted
average in a `long double`; the model uses exact rationals). -/
def truncQ (q : ℚ) : Int := q.num.tdiv q.den

/-- A Branch container as `BranchLCC::getCostForPC` sees it: the
already-evaluated predictive costs of the entry (dominator) and exit
(post-dominator) children, the middle branches with their
probabilities (in iteration order), the direct-edge flag, and the
simplification context. -/
structure BranchPCIn where
  entryCost : ICost
  exitCost : ICost
  branches : List (ICost × ℚ)
  hasDirectEdge : Bool
  env : GEnv
  fargs : List SCEV

/-- The observable outcome of a Branch predictive evaluation: the
per-branch instrumentation markers `(branch index, cost)`, the
direct-edge entry scheduled in the `directBranch` map (the predictive
evaluator never touches that map), the returned simplified cost, and
whether the rule2-save statistic fired. -/
structure BranchPCOut where
  instrumented : List (Nat × ICost)
  directSchedule : Option Int
  ret : Option ICost
  rule2saved : Bool

/-- The branch scan of `BranchLCC::getCostForPC` (lines 2280-2307):
a non-constant branch cost forces instrumentation; constant costs feed
the running min/max (seeded by the first constant cost) and the
probability-weighted average. -/
def branchScanPC (branches : List (ICost × ℚ)) : Bool × Int × Int × ℚ × Bool :=
  branches.foldl
    (fun st bc =>
      let n := hasConstCost bc.1
      if n = -1 then (st.1, st.2.1, st.2.2.1, st.2.2.2.1, true)
      else
        let mx := if st.1 then n else max st.2.1 n
        let mn := if st.1 then n else min st.2.2.1 n
        (false, mx, mn, st.2.2.2.1 + bc.2 * (n : ℚ), st.2.2.2.2))
    (true, 0, 0, 0, false)

/-- `BranchLCC::getCostForPC` (lines 2262-2354).  With a direct edge
the minimum is forced to 0 (line 2310); when any branch is non-constant
or the spread exceeds `ALLOWED_DEVIATION` (100), every branch is
instrumented with its own cost and only the dominator and
post-dominator costs are summed — the `directBranch` map is NOT
touched; otherwise the truncated weighted average joins the sum and
nothing is instrumented ("rule2 save"). -/
def branchGetCostForPC (fuel : Nat) (inp : BranchPCIn) : BranchPCOut :=
  let scan := branchScanPC inp.branches
  let mx := scan.2.1
  let mn := if inp.hasDirectEdge then 0 else scan.2.2.1
  let avg := truncQ scan.2.2.2.1
  let instrumentBranch := scan.2.2.2.2 || decide (mx - mn > 100)
  if instrumentBranch then
    { instrumented := inp.branches.enum.map (fun p => (p.1, p.2.1)),
      directSchedule := none,
      ret := simplifyCostM fuel inp.env inp.fargs (.add [inp.entryCost, inp.exitCost]),
      rule2saved := false }
  else
    { instrumented := [],
      directSchedule := none,
      ret := simplifyCostM fuel inp.env inp.fargs
        (.add [inp.entryCost, inp.exitCost, .const avg]),
      rule2saved := true }

/-- A Branch container as `BranchLCC::getCostForIC` sees it: the
instantaneous evaluations of the entry and exit children (functions of
their incoming initial cost), the branch children with probabilities,
the direct-edge flag and probability, and whether `_domBlock` is
already in the `directBranch` map. -/
structure BranchICIn where
  commitInterval : Int
  entryEval : Int → Int
  exitEval : Int → Int
  branchEvals : List ((Int → Int) × ℚ)
  hasDirectEdge : Bool
  directProb : ℚ
  domInDirectMap : Bool

/-- The observable outcome of a Branch instantaneous evaluation. -/
structure BranchICOut where
  instrumented : List (Nat × Int)
  directSchedule : Option Int
  ret : Int
  exitCommitted : Bool
  rule2saved : Bool

/-- The branch scan of `BranchLCC::getCostForIC` (lines 2384-2406):
every branch is evaluated with the entry cost as its initial cost; all
costs are constants here. -/
def branchScanIC (bcosts : List (Int × ℚ)) : Bool × Int × Int × ℚ :=
  bcosts.foldl
    (fun st bc =>
      let mx := if st.1 then bc.1 else max st.2.1 bc.1
      let mn := if st.1 then bc.1 else min st.2.2.1 bc.1
      (false, mx, mn, st.2.2.2 + bc.2 * (bc.1 : ℚ)))
    (true, 0, 0, 0)

/-- `BranchLCC::getCostForIC` (lines 2356-2472).  The entry cost joins
the min/max and the weighted average when a direct edge exists (lines
2408-2418); when the spread exceeds `ALLOWED_DEVIATION` (100) every
branch is instrumented with its own evaluated cost, the direct edge is
scheduled in `directBranch` for a dummy block carrying
`entryCost + 1` (unless the dominator is already in the map), and the
exit child starts from 0; otherwise nothing is instrumented and the
exit child starts from the truncated weighted average.  The exit cost
is committed in place when `toInstrument` is set or it exceeds the
commit interval. -/
def branchGetCostForIC (inp : BranchICIn) (toInstrument : Bool) (initialCost : Int) :
    BranchICOut :=
  let entryCost := inp.entryEval initialCost
  let bcosts := inp.branchEvals.map (fun be => (be.1 entryCost, be.2))
  let scan := branchScanIC bcosts
  let mx0 := scan.2.1
  let mn0 := scan.2.2.1
  let mn := if inp.hasDirectEdge then min mn0 entryCost else mn0
  let mx := if inp.hasDirectEdge then max mx0 entryCost else mx0
  let avgQ := if inp.hasDirectEdge then scan.2.2.2 + inp.directProb * (entryCost : ℚ)
    else scan.2.2.2
  let instrumentBranch := decide (mx - mn > 100)
  let avg := if instrumentBranch then 0 else truncQ avgQ
  let exitCost := inp.exitEval avg
  let commit := toInstrument || decide (exitCost > inp.commitInterval)
  { instrumented := if instrumentBranch then bcosts.enum.map (fun p => (p.1, p.2.1)) else [],
    directSchedule :=
      if instrumentBranch && inp.hasDirectEdge && !inp.domInDirectMap then
        some (entryCost + 1)
      else none,
    ret := if commit then 0 else exitCost,
    exitCommitted := commit,
    rule2saved := !instrumentBranch }

/-- C1 (amended).  For every Branch container reduced by rule R2: if
any branch cost is non-constant (predictive mode) or the spread between
the maximum and minimum branch costs (with the direct edge counted as 0
in predictive mode and as the entry cost in instantaneous mode) exceeds
`ALLOWED_DEVIATION` (100), then every branch is individually
instrumented with its own cost, and — in instantaneous evaluation
only — an existing direct dominator-to-postdominator edge is scheduled
in the `directBranch` map for a dummy block carrying `entryCost + 1`;
the predictive evaluator never touches `directBranch`.  Otherwise no
per-branch instrumentation is emitted and the truncated
probability-weighted average branch cost is propagated upward. -/
theorem claim_C1 (fuel : Nat) (inp : BranchPCIn) (icInp : BranchICIn) (ti : Bool)
    (init : Int) :
    (let scan := branchScanPC inp.branches
     let mn := if inp.hasDirectEdge then 0 else scan.2.2.1
     let trigger := scan.2.2.2.2 || decide (scan.2.1 - mn > 100)
     (trigger = true →
       (branchGetCostForPC fuel inp).instrumented =
         inp.branches.enum.map (fun p => (p.1, p.2.1)) ∧
       (branchGetCostForPC fuel inp).directSchedule = none ∧
       (branchGetCostForPC fuel inp).rule2saved = false ∧
       (branchGetCostForPC fuel inp).ret =
         simplifyCostM fuel inp.env inp.fargs (.add [inp.entryCost, inp.exitCost])) ∧
     (trigger = false →
       (branchGetCostForPC fuel inp).instrumented = [] ∧
       (branchGetCostForPC fuel inp).rule2saved = true ∧
       (branchGetCostForPC fuel inp).ret =
         simplifyCostM fuel inp.env inp.fargs
           (.add [inp.entryCost, inp.exitCost, .const (truncQ scan.2.2.2.1)]))) ∧
    (let entryCost := icInp.entryEval init
     let bcosts := icInp.branchEvals.map (fun be => (be.1 entryCost, be.2))
     let scan := branchScanIC bcosts
     let mn := if icInp.hasDirectEdge then min scan.2.2.1 entryCost else scan.2.2.1
     let mx := if icInp.hasDirectEdge then max scan.2.1 entryCost else scan.2.1
     let avgQ := if icInp.hasDirectEdge then
         scan.2.2.2 + icInp.directProb * (entryCost : ℚ)
       else scan.2.2.2
     (mx - mn > 100 →
       (branchGetCostForIC icInp ti init).instrumented =
         bcosts.enum.map (fun p => (p.1, p.2.1)) ∧
       (branchGetCostForIC icInp ti init).directSchedule =
         (if icInp.hasDirectEdge && !icInp.domInDirectMap then some (entryCost + 1)
          else none) ∧
       (branchGetCostForIC icInp ti init).rule2saved = false ∧
       (branchGetCostForIC icInp ti init).ret =
         (if ti || decide (icInp.exitEval 0 > icInp.commitInterval) then 0
          else icInp.exitEval 0)) ∧
     (¬(mx - mn > 100) →
       (branchGetCostForIC icInp ti init).instrumented = [] ∧
       (branchGetCostForIC icInp ti init).directSchedule = none ∧
       (branchGetCostForIC icInp ti init).rule2saved = true ∧
       (branchGetCostForIC icInp ti init).ret =
         (if ti || decide (icInp.exitEval (truncQ avgQ) > icInp.commitInterval) then 0
          else icInp.exitEval (truncQ avgQ)))) := by
  constructor
  · constructor
    · intro htrig
      unfold branchGetCostForPC
      rw [if_pos (by exact htrig)]
      exact ⟨rfl, rfl, rfl, rfl⟩
    · intro htrig
      unfold branchGetCostForPC
      rw [if_neg (by simp only [htrig]; simp)]
      exact ⟨rfl, rfl, rfl⟩
  · constructor
    · intro htrig
      unfold branchGetCostForIC
      simp only [decide_eq_true htrig, if_true, Bool.true_and]
      refine ⟨?_, ?_, ?_, ?_⟩ <;> trivial
    · intro htrig
      unfold branchGetCostForIC
      simp only [decide_eq_false htrig, Bool.false_and, if_false, Bool.false_eq_true]
      refine ⟨?_, ?_, ?_, ?_⟩ <;> trivial

/-- A predictive Branch instance: one middle branch of constant cost
200, a direct edge (forcing the minimum to 0, spread 200 > 100). -/
def c1PCIn : BranchPCIn := ⟨.const 1, .const 2, [(.const 200, 1)], true, cex3Env, []⟩

/-- The matching instantaneous Branch instance: entry child cost 1,
one branch child of cost 200, direct edge present and not yet in the
map. -/
def c1ICIn : BranchICIn :=
  ⟨1000, fun _ => 1, fun a => a + 3, [(fun _ => 200, 1)], true, 1 / 2, false⟩

/-- C1, counterexample to the claim as stated: on a deviation-exceeding
Branch with a direct edge, the predictive evaluator instruments every
branch but leaves the `directBranch` map untouched (`none`), while only
the instantaneous evaluator schedules the dummy block with
`entryCost + 1`; the claim asserts the scheduling happens in both
modes. -/
theorem claim_C1_counterexample :
    (branchGetCostForPC 1 c1PCIn).instrumented = [(0, .const 200)] ∧
    (branchGetCostForPC 1 c1PCIn).directSchedule = none ∧
    (branchGetCostForIC c1ICIn false 0).instrumented = [(0, 200)] ∧
    (branchGetCostForIC c1ICIn false 0).directSchedule = some 2 := by
  refine ⟨rfl, rfl, rfl, rfl⟩

/-- C1, witness: the amended theorem applied at the concrete
instantaneous instance of the counterexample. -/
theorem claim_C1_witness :
    (branchGetCostForIC c1ICIn false 0).instrumented = [(0, 200)] ∧
    (branchGetCostForIC c1ICIn false 0).directSchedule = some (1 + 1) ∧
    (branchGetCostForIC c1ICIn false 0).rule2saved = false ∧
    (branchGetCostForIC c1ICIn false 0).ret = 3 := by
  have h := ((claim_C1 1 c1PCIn c1ICIn false 0).2.1 (by decide))
  exact ⟨h.1, h.2.1, h.2.2.1, h.2.2.2⟩

/-! ## The symbolic round trip (claim C9) -/

/-- A signed value within `w - 1` bits is a fixed point of `w`-bit
wrapping (for `w ≥ 1`). -/
lemma swrap_eq_self (w : Nat) (x : Int) (hw : 1 ≤ w)
    (h1 : -(pow2 (w - 1)) ≤ x) (h2 : x < pow2 (w - 1)) : swrap w x = x := by
  obtain ⟨w0, rfl⟩ : ∃ w0, w = w0 + 1 := ⟨w - 1, by omega⟩
  have hww : pow2 (w0 + 1) = 2 * pow2 w0 := by
    unfold pow2
    ring
  have hpos : (0 : Int) < pow2 w0 := by
    unfold pow2
    positivity
  simp only [Nat.add_sub_cancel] at h1 h2
  unfold swrap uns
  simp only [Nat.add_sub_cancel]
  rcases le_or_lt 0 x with hx | hx
  · rw [Int.emod_eq_of_lt hx (by omega)]
    rw [if_pos h2]
  · have hmod : x % pow2 (w0 + 1) = x + pow2 (w0 + 1) := by
      have : x % pow2 (w0 + 1) = (x + pow2 (w0 + 1) * 1) % pow2 (w0 + 1) := by
        rw [Int.add_mul_emod_self_left]
      rw [this, mul_one, Int.emod_eq_of_lt (by omega) (by omega)]
    rw [hmod, if_neg (by omega)]
    omega

/-- A `w`-bit wrap always lands in the signed `w`-bit range. -/
lemma swrap_mem_range (w : Nat) (x : Int) (hw : 1 ≤ w) :
    -(pow2 (w - 1)) ≤ swrap w x ∧ swrap w x < pow2 (w - 1) := by
  obtain ⟨w0, rfl⟩ : ∃ w0, w = w0 + 1 := ⟨w - 1, by omega⟩
  have hww : pow2 (w0 + 1) = 2 * pow2 w0 := by
    unfold pow2
    ring
  have hpos : (0 : Int) < pow2 w0 := by
    unfold pow2
    positivity
  have hmod1 : 0 ≤ x % pow2 (w0 + 1) := Int.emod_nonneg x (by omega)
  have hmod2 : x % pow2 (w0 + 1) < pow2 (w0 + 1) := Int.emod_lt_of_pos x (by omega)
  unfold swrap uns
  simp only [Nat.add_sub_cancel]
  constructor <;> split <;> omega

/-- No element of the list is an `SCEVConstant`. -/
def NoConstE (l : List SCEV) : Prop := ∀ o ∈ l, isConstE o = false

/-- Canonical shape of the operand list of an `scAddExpr` built by the
host: at most one constant operand, placed first, non-zero, in the
signed range of the common width `w`. -/
def AddShape (w : Nat) (l : List SCEV) : Prop :=
  NoConstE l ∨ ∃ v rest, l = .constant w v :: rest ∧ v ≠ 0 ∧
    -(pow2 (w - 1)) ≤ v ∧ v < pow2 (w - 1) ∧ NoConstE rest

/-- Canonical shape of the operand list of an `scMulExpr`: the leading
constant is additionally not the unit. -/
def MulShape (w : Nat) (l : List SCEV) : Prop :=
  NoConstE l ∨ ∃ v rest, l = .constant w v :: rest ∧ v ≠ 0 ∧ v ≠ 1 ∧
    -(pow2 (w - 1)) ≤ v ∧ v < pow2 (w - 1) ∧ NoConstE rest

/-- The fragment of scalar-evolution expressions on which the
`scevToCost` / `costToSCEV` round trip is exact: canonically shaped
expressions whose n-ary operands share one width, whose constants are
64-bit values within the SIGNED 32-BIT range (`scevToCost` stores every
constant through the C `int intVal` at line 425, so wider values wrap),
and whose argument unknowns are mapped to themselves by the caller's
binding (as `simplifyCost` does for a function's own arguments).
`scUMinExpr` is excluded: `scevToCost`'s `switch` does not list it, so
u-min expressions collapse to `unknown`; add-recurrences and
could-not-compute are likewise excluded. -/
inductive RT (args : List SCEV) : SCEV → Prop where
  | constRT (v : Int) (h1 : -(pow2 31) ≤ v) (h2 : v < pow2 31) :
      RT args (.constant 64 v)
  | argRT (w i : Nat) (h : args[i]? = some (.argUnknown w i)) :
      RT args (.argUnknown w i)
  | addRT (ops : List SCEV) (w : Nat) (hw1 : 1 ≤ w) (hlen : 2 ≤ ops.length)
      (hw : ∀ o ∈ ops, widthOf o = w) (hshape : AddShape w ops)
      (hops : ∀ o ∈ ops, RT args o) : RT args (.addE ops)
  | mulRT (ops : List SCEV) (w : Nat) (hw1 : 2 ≤ w) (hlen : 2 ≤ ops.length)
      (hw : ∀ o ∈ ops, widthOf o = w) (hshape : MulShape w ops)
      (hops : ∀ o ∈ ops, RT args o) : RT args (.mulE ops)
  | smaxRT (ops : List SCEV) (w : Nat) (hlen : 2 ≤ ops.length)
      (hw : ∀ o ∈ ops, widthOf o = w) (hops : ∀ o ∈ ops, RT args o) :
      RT args (.smaxE ops)
  | sminRT (ops : List SCEV) (w : Nat) (hlen : 2 ≤ ops.length)
      (hw : ∀ o ∈ ops, widthOf o = w) (hops : ∀ o ∈ ops, RT args o) :
      RT args (.sminE ops)
  | umaxRT (ops : List SCEV) (w : Nat) (hlen : 2 ≤ ops.length)
      (hw : ∀ o ∈ ops, widthOf o = w) (hops : ∀ o ∈ ops, RT args o) :
      RT args (.umaxE ops)
  | udivRT (a b : SCEV) (hw : widthOf a = widthOf b) (ha : RT args a)
      (hb : RT args b) : RT args (.udivE a b)

/-- An expression in the fragment is never could-not-compute. -/
lemma rt_not_cnc (args : List SCEV) (s : SCEV) (h : RT args s) : isCNC s = false := by
  cases h <;> rfl

lemma costToSCEVList_roundtrip (fuel : Nat) (env : GEnv) (args ops : List SCEV)
    (h : ∀ o ∈ ops, costToSCEV fuel env (scevToCost o) args = some o) :
    costToSCEVList fuel env (scevToCostList ops) args = ops.map some := by
  induction ops with
  | nil => simp [scevToCostList, costToSCEVList]
  | cons o rest ih =>
    simp only [scevToCostList, costToSCEVList, List.map_cons]
    rw [h o (by simp), ih (fun x hx => h x (by simp [hx]))]

lemma reduceOption_map_some (l : List SCEV) : (l.map some).reduceOption = l := by
  induction l with
  | nil => rfl
  | cons o rest ih => simp [List.reduceOption, ih]

lemma find_optBad_none (l : List SCEV) (h : ∀ o ∈ l, isCNC o = false) :
    (l.map some).find? optBad = none := by
  induction l with
  | nil => rfl
  | cons o rest ih =>
    have hbad : optBad (some o) = false := by simp [optBad, h o (by simp)]
    simp only [List.map_cons]
    rw [List.find?_cons_of_neg _ (by simp [hbad])]
    exact ih (fun x hx => h x (by simp [hx]))

lemma foldl_max_width (l : List SCEV) (w : Nat) (hl : l ≠ [])
    (h : ∀ o ∈ l, widthOf o = w) :
    ∀ acc, l.foldl (fun a s => max a (widthOf s)) acc = max acc w := by
  induction l with
  | nil => exact absurd rfl hl
  | cons o rest ih =>
    intro acc
    simp only [List.foldl_cons, h o (by simp)]
    cases hr : rest with
    | nil => simp [List.foldl_nil]
    | cons x xs =>
      rw [← hr, ih (by simp [hr]) (fun y hy => h y (by simp [hy])) (max acc w)]
      rw [max_assoc, max_self]

lemma map_zext_id (l : List SCEV) (w : Nat) (h : ∀ o ∈ l, widthOf o = w) :
    l.map (fun s => if widthOf s ≠ w then getZeroExtendExprM s w else s) = l := by
  rw [List.map_congr_left (g := id) (fun o ho => by simp [h o ho]), List.map_id]

lemma filter_const_of_none (l : List SCEV) (h : NoConstE l) :
    l.filter isConstE = [] := by
  induction l with
  | nil => rfl
  | cons o rest ih =>
    rw [List.filter_cons_of_neg (by simp [h o (by simp)])]
    exact ih (fun x hx => h x (by simp [hx]))

lemma filter_nonconst_of_none (l : List SCEV) (h : NoConstE l) :
    l.filter (fun o => !(isConstE o)) = l := by
  induction l with
  | nil => rfl
  | cons o rest ih =>
    rw [List.filter_cons_of_pos (by simp [h o (by simp)])]
    rw [ih (fun x hx => h x (by simp [hx]))]

lemma pow2_pos (n : Nat) : (0 : Int) < pow2 n := by
  unfold pow2
  positivity

lemma getAddExprM_canonical (ops : List SCEV) (w : Nat) (hw1 : 1 ≤ w)
    (hlen : 2 ≤ ops.length) (hwid : ∀ o ∈ ops, widthOf o = w)
    (hs : AddShape w ops) : getAddExprM ops = .addE ops := by
  have hhead : headWidth ops = w := by
    cases ops with
    | nil => simp at hlen
    | cons a rest => simpa [headWidth] using hwid a (by simp)
  rcases hs with hnc | ⟨v, rest, hops, hv0, hvlo, hvhi, hrest⟩
  · have hzero : swrap w 0 = 0 :=
      swrap_eq_self w 0 hw1 (by have := pow2_pos (w - 1); omega)
        (by have := pow2_pos (w - 1); omega)
    unfold getAddExprM
    rw [hhead, filter_const_of_none ops hnc, filter_nonconst_of_none ops hnc]
    simp only [List.foldl_nil, hzero]
    rcases ops with _ | ⟨a, _ | ⟨b, t⟩⟩
    · simp at hlen
    · simp at hlen
    · simp
  · subst hops
    have hvw : swrap w v = v := swrap_eq_self w v hw1 hvlo hvhi
    unfold getAddExprM
    rw [hhead]
    rw [List.filter_cons_of_pos (by simp [isConstE]),
      List.filter_cons_of_neg (by simp [isConstE]),
      filter_const_of_none rest hrest, filter_nonconst_of_none rest hrest]
    simp only [List.foldl_cons, List.foldl_nil, constValOf, zero_add, hvw]
    rw [if_neg (by
      simp only [List.isEmpty_eq_true]
      intro h0
      subst h0
      simp at hlen)]
    rw [if_neg hv0]

lemma getMulExprM_canonical (ops : List SCEV) (w : Nat) (hw2 : 2 ≤ w)
    (hlen : 2 ≤ ops.length) (hwid : ∀ o ∈ ops, widthOf o = w)
    (hs : MulShape w ops) : getMulExprM ops = .mulE ops := by
  have hhead : headWidth ops = w := by
    cases ops with
    | nil => simp at hlen
    | cons a rest => simpa [headWidth] using hwid a (by simp)
  have hp : (1 : Int) < pow2 (w - 1) := by
    have : pow2 1 ≤ pow2 (w - 1) := by
      unfold pow2
      exact pow_le_pow_right₀ (by norm_num) (by omega)
    unfold pow2 at this ⊢
    omega
  rcases hs with hnc | ⟨v, rest, hops, hv0, hv1, hvlo, hvhi, hrest⟩
  · have hone : swrap w 1 = 1 :=
      swrap_eq_self w 1 (by omega) (by have := pow2_pos (w - 1); omega) hp
    unfold getMulExprM
    rw [hhead, filter_const_of_none ops hnc, filter_nonconst_of_none ops hnc]
    simp only [List.foldl_nil, hone]
    rcases ops with _ | ⟨a, _ | ⟨b, t⟩⟩
    · simp at hlen
    · simp at hlen
    · simp
  · subst hops
    have hvw : swrap w v = v := swrap_eq_self w v (by omega) hvlo hvhi
    unfold getMulExprM
    rw [hhead]
    rw [List.filter_cons_of_pos (by simp [isConstE]),
      List.filter_cons_of_neg (by simp [isConstE]),
      filter_const_of_none rest hrest, filter_nonconst_of_none rest hrest]
    simp only [List.foldl_cons, List.foldl_nil, constValOf, one_mul, hvw]
    rw [if_neg (by
      simp only [List.isEmpty_eq_true]
      intro h0
      subst h0
      simp at hlen)]
    rw [if_neg hv0, if_neg hv1]

lemma addFromParts_canonical (ops : List SCEV) (w : Nat) (hw1 : 1 ≤ w)
    (hlen : 2 ≤ ops.length) (hwid : ∀ o ∈ ops, widthOf o = w)
    (hcnc : ∀ o ∈ ops, isCNC o = false) (hs : AddShape w ops) :
    addFromParts (ops.map some) = some (.addE ops) := by
  have hne : ops ≠ [] := by
    intro h0
    subst h0
    simp at hlen
  unfold addFromParts
  rw [find_optBad_none ops hcnc]
  simp only [reduceOption_map_some, foldl_max_width ops w hne hwid, Nat.zero_max,
    map_zext_id ops w hwid]
  rcases hops : ops with _ | ⟨a, _ | ⟨b, t⟩⟩
  · simp [hops] at hlen
  · simp [hops] at hlen
  · rw [← hops]
    have : getAddExprM ops = .addE ops := getAddExprM_canonical ops w hw1 hlen hwid hs
    simp only [hops] at this ⊢
    simp [this]

lemma mulFromParts_canonical (ops : List SCEV) (w : Nat) (hw2 : 2 ≤ w)
    (hlen : 2 ≤ ops.length) (hwid : ∀ o ∈ ops, widthOf o = w)
    (hcnc : ∀ o ∈ ops, isCNC o = false) (hs : MulShape w ops) :
    mulFromParts (ops.map some) = some (.mulE ops) := by
  have hne : ops ≠ [] := by
    intro h0
    subst h0
    simp at hlen
  unfold mulFromParts
  rw [find_optBad_none ops hcnc]
  simp only [reduceOption_map_some, foldl_max_width ops w hne hwid, Nat.zero_max,
    map_zext_id ops w hwid]
  rw [getMulExprM_canonical ops w hw2 hlen hwid hs]

lemma minMaxCheck_aux (l : List SCEV) (w : Nat)
    (h : ∀ o ∈ l, isCNC o = false ∧ widthOf o = w) :
    minMaxCheck (l.map some) (some w) = none := by
  induction l with
  | nil => rfl
  | cons o rest ih =>
    obtain ⟨hc, hwo⟩ := h o (by simp)
    simp only [List.map_cons, minMaxCheck, hc, hwo, Bool.false_eq_true, if_false,
      ne_eq, not_true_eq_false]
    exact ih (fun x hx => h x (by simp [hx]))

lemma minMaxCheck_clean (l : List SCEV) (w : Nat)
    (h : ∀ o ∈ l, isCNC o = false ∧ widthOf o = w) :
    minMaxCheck (l.map some) none = none := by
  cases l with
  | nil => rfl
  | cons o rest =>
    obtain ⟨hc, hwo⟩ := h o (by simp)
    simp only [List.map_cons, minMaxCheck, hc, Bool.false_eq_true, if_false, hwo]
    exact minMaxCheck_aux rest w (fun x hx => h x (by simp [hx]))

lemma minMaxFromParts_canonical (mk : List SCEV → SCEV) (ops : List SCEV) (w : Nat)
    (h : ∀ o ∈ ops, isCNC o = false ∧ widthOf o = w) :
    minMaxFromParts mk (ops.map some) = some (mk ops) := by
  unfold minMaxFromParts
  rw [minMaxCheck_clean ops w h, reduceOption_map_some]

/-- On the canonical fragment the round trip is exact: converting to a
cost expression and back under the function's own argument binding
returns the original scalar-evolution expression. -/
lemma rt_roundtrip (fuel : Nat) (env : GEnv) (args : List SCEV) (s : SCEV)
    (h : RT args s) :
    costToSCEV fuel env (scevToCost s) args = some s := by
  induction h with
  | constRT v h1 h2 =>
    have h64 : swrap 64 v = v :=
      swrap64_eq v (by unfold pow2 at *; omega) (by unfold pow2 at *; omega)
    have h32 : swrap 32 v = v := swrap32_eq v h1 h2
    simp [scevToCost, costToSCEV, mkConst64, h64, h32]
  | argRT w i hi =>
    simp [scevToCost, costToSCEV, hi]
  | addRT ops w hw1 hlen hwid hshape hops ih =>
    simp only [scevToCost, costToSCEV]
    rw [costToSCEVList_roundtrip fuel env args ops ih]
    exact addFromParts_canonical ops w hw1 hlen hwid
      (fun o ho => rt_not_cnc args o (hops o ho)) hshape
  | mulRT ops w hw2 hlen hwid hshape hops ih =>
    simp only [scevToCost, costToSCEV]
    rw [costToSCEVList_roundtrip fuel env args ops ih]
    exact mulFromParts_canonical ops w hw2 hlen hwid
      (fun o ho => rt_not_cnc args o (hops o ho)) hshape
  | smaxRT ops w hlen hwid hops ih =>
    simp only [scevToCost, costToSCEV]
    rw [costToSCEVList_roundtrip fuel env args ops ih]
    exact minMaxFromParts_canonical _ ops w
      (fun o ho => ⟨rt_not_cnc args o (hops o ho), hwid o ho⟩)
  | sminRT ops w hlen hwid hops ih =>
    simp only [scevToCost, costToSCEV]
    rw [costToSCEVList_roundtrip fuel env args ops ih]
    exact minMaxFromParts_canonical _ ops w
      (fun o ho => ⟨rt_not_cnc args o (hops o ho), hwid o ho⟩)
  | umaxRT ops w hlen hwid hops ih =>
    simp only [scevToCost, costToSCEV]
    rw [costToSCEVList_roundtrip fuel env args ops ih]
    exact minMaxFromParts_canonical _ ops w
      (fun o ho => ⟨rt_not_cnc args o (hops o ho), hwid o ho⟩)
  | udivRT a b hwab ha hb iha ihb =>
    simp only [scevToCost, costToSCEV]
    rw [iha, ihb]
    simp [rt_not_cnc args a ha, rt_not_cnc args b hb, hwab, getUDivExprM]

/-- Empty cost tables for the round-trip instances. -/
def c9Env : GEnv := ⟨fun _ => none, fun _ => none⟩

/-- Claim C9 (corrected): `costToSCEV` inverts `scevToCost` exactly on
the canonical equal-width fragment `RT` — whose constants are confined
to the signed 32-bit range, because `scevToCost` stores every constant
through the C `int intVal` (line 425): the second conjunct shows a
64-bit constant coming back 32-bit-wrapped.  Widening happens only
before `add` and `mul` (zero-extending to the widest width, as the
third conjunct shows for a mixed 64/32-bit sum).  The min/max cases do
NOT widen: a min/max whose operand widths differ collapses to
could-not-compute.  `scUMinExpr`, missing from `scevToCost`'s switch,
breaks the round trip unconditionally by collapsing to `unknown`,
which converts back to could-not-compute. -/
theorem claim_C9 (fuel : Nat) (env : GEnv) (args : List SCEV) :
    (∀ s, RT args s → costToSCEV fuel env (scevToCost s) args = some s) ∧
    (∀ v, -(pow2 63) ≤ v → v < pow2 63 →
      costToSCEV fuel env (scevToCost (.constant 64 v)) args =
        some (.constant 64 (swrap 32 v))) ∧
    (∀ v i, v ≠ 0 → -(pow2 63) ≤ v → v < pow2 63 →
      args[i]? = some (.argUnknown 32 i) →
      costToSCEV fuel env (.add [.const v, .arg i]) args =
        some (.addE [.constant 64 v, .zextE 64 (.argUnknown 32 i)])) ∧
    (∀ i j, args[i]? = some (.argUnknown 32 i) →
      args[j]? = some (.argUnknown 64 j) →
      costToSCEV fuel env
        (scevToCost (.smaxE [.argUnknown 32 i, .argUnknown 64 j])) args =
        some .couldNotCompute) ∧
    (∀ ops, costToSCEV fuel env (scevToCost (.uminE ops)) args =
      some .couldNotCompute) := by
  refine ⟨fun s h => rt_roundtrip fuel env args s h, ?_, ?_, ?_, ?_⟩
  · intro v hv1 hv2
    have h64 : swrap 64 v = v := swrap64_eq v hv1 hv2
    have hr := swrap_mem_range 32 v (by omega)
    have h64b : swrap 64 (swrap 32 v) = swrap 32 v :=
      swrap64_eq _ (by have := hr.1; unfold pow2 at *; omega)
        (by have := hr.2; unfold pow2 at *; omega)
    simp [scevToCost, costToSCEV, mkConst64, h64, h64b]
  · intro v i hv h1 h2 hi
    have hsw : swrap 64 v = v := swrap64_eq v h1 h2
    simp [costToSCEV, costToSCEVList, addFromParts, optBad, isCNC, mkConst64, hsw,
      List.reduceOption, widthOf, getZeroExtendExprM, getAddExprM, headWidth,
      isConstE, constValOf, hi, hv]
  · intro i j hi hj
    simp [scevToCost, scevToCostList, costToSCEV, costToSCEVList, minMaxFromParts,
      minMaxCheck, isCNC, widthOf, hi, hj]
  · intro ops
    simp [scevToCost, costToSCEV]

/-- A signed-max whose operands convert back with different widths
(the 32-bit constant round-trips as a 64-bit constant) is not widened:
`costToSCEV` returns could-not-compute rather than the original
expression, refuting the unconditional widening and the unrestricted
round-trip law.  Moreover a 64-bit constant at the edge of the `int`
range does not survive the bridge at all: `2^31` comes back as
`-2^31`, wrapped by `scevToCost`'s `int intVal` (line 425). -/
theorem claim_C9_counterexample :
    costToSCEV 1 c9Env (scevToCost (.smaxE [.constant 32 5, .argUnknown 32 0]))
      [.argUnknown 32 0] = some .couldNotCompute ∧
    SCEV.smaxE [.constant 32 5, .argUnknown 32 0] ≠ .couldNotCompute ∧
    costToSCEV 1 c9Env (scevToCost (.constant 64 (pow2 31))) [] =
      some (.constant 64 (-(pow2 31))) ∧
    (pow2 31 : Int) ≠ -(pow2 31) := by
  refine ⟨?_, by simp, ?_, by unfold pow2; norm_num⟩
  · have h5 : swrap 64 5 = 5 := swrap64_eq 5 (by norm_num [pow2]) (by norm_num [pow2])
    have h5b : swrap 32 (swrap 32 5) = 5 := by decide
    simp [scevToCost, scevToCostList, costToSCEV, costToSCEVList, minMaxFromParts,
      minMaxCheck, mkConst64, isCNC, widthOf, optBad, h5, h5b]
  · have hw1 : swrap 32 (swrap 64 (pow2 31)) = -(pow2 31) := by decide
    have hw2 : swrap 64 (-(pow2 31)) = -(pow2 31) := by decide
    simp [scevToCost, costToSCEV, mkConst64, hw1, hw2]

/-- The round-trip theorem at a concrete signed-max of two 32-bit
arguments bound to themselves. -/
theorem claim_C9_witness :
    costToSCEV 1 c9Env (scevToCost (.smaxE [.argUnknown 32 0, .argUnknown 32 1]))
      [.argUnknown 32 0, .argUnknown 32 1] =
      some (.smaxE [.argUnknown 32 0, .argUnknown 32 1]) :=
  (claim_C9 1 c9Env [.argUnknown 32 0, .argUnknown 32 1]).1
    (.smaxE [.argUnknown 32 0, .argUnknown 32 1])
    (RT.smaxRT [.argUnknown 32 0, .argUnknown 32 1] 32 (by simp)
      (by
        intro o ho
        simp only [List.mem_cons, List.not_mem_nil, or_false] at ho
        rcases ho with rfl | rfl <;> simp [widthOf])
      (by
        intro o ho
        simp only [List.mem_cons, List.not_mem_nil, or_false] at ho
        rcases ho with rfl | rfl
        · exact RT.argRT 32 0 rfl
        · exact RT.argRT 32 1 rfl))
